import Mathlib

/-!
Fire department equipment tracker: a verification development of `app.js`.

The development embeds the record store and the reporting code of `app.js`
as Lean functions and proves properties of them.

Modelling conventions.

* A JavaScript string is a Lean `String` (a well-formed sequence of Unicode
  code points).
* An equipment object is a structure; a property that may be missing from the
  object is an `Option` (`none` is JavaScript `undefined`).  The form handler
  of `app.js` always builds `name`, `type`, `location` and `status` as
  strings, and the code reads them without a guard, so these four are
  strings; `serialNumber` and `notes` are read through guards
  (`e.serialNumber && ...`, `item.notes || ''`) and are optional.
* A JavaScript number is a `JSNumber`: `NaN`, the two infinities, or a finite
  IEEE-754 double, kept as the rational number it denotes.  Division and
  multiplication round their exact result to the nearest double, ties to
  even, as the JavaScript operators do; the sign of zero is not modelled.
-/

namespace EquipmentTracker

/-! ## JavaScript numbers -/

/-- A JavaScript number: `NaN`, an infinity, or a finite double, kept as the
rational number it denotes. -/
inductive JSNumber where
  | nan : JSNumber
  | posInf : JSNumber
  | negInf : JSNumber
  | fin (q : ℚ) : JSNumber
  deriving DecidableEq

/-- The integer nearest to `x`; of two nearest integers, the even one. -/
def roundHalfEven (x : ℚ) : ℤ :=
  if x - Int.floor x < 1 / 2 then Int.floor x
  else if 1 / 2 < x - Int.floor x then Int.floor x + 1
  else if Int.floor x % 2 = 0 then Int.floor x
  else Int.floor x + 1

/-- The exponent `e` such that the doubles around a positive `a` are the
multiples of `2 ^ e`: 52 below the binary exponent of `a` (a significand of
53 bits), and `-1074` in the subnormal range. -/
def ulpExponent (a : ℚ) : ℤ :=
  max (Int.log 2 a - 52) (-1074)

/-- The multiple of `2 ^ ulpExponent a` nearest to a positive `a`, ties to the
even multiple. -/
def roundMagnitude (a : ℚ) : ℚ :=
  (roundHalfEven (a / 2 ^ ulpExponent a) : ℚ) * 2 ^ ulpExponent a

/-- The double that IEEE-754 arithmetic returns for the exact result `q`:
round to nearest, ties to even; a magnitude that rounds to `2 ^ 1024` or more
overflows to an infinity. -/
def roundToDouble (q : ℚ) : JSNumber :=
  if q = 0 then JSNumber.fin 0
  else if 2 ^ (1024 : ℤ) ≤ roundMagnitude |q| then
    if 0 < q then JSNumber.posInf else JSNumber.negInf
  else JSNumber.fin (if 0 < q then roundMagnitude |q| else -roundMagnitude |q|)

/-- JavaScript `a / b` for two finite operands, the divisor being a
non-negative integer (an array length): `0 / 0` is `NaN`, a non-zero
dividend over `0` is an infinity of the dividend's sign, and any other
quotient is rounded to a double.  (The operands of the reports are array
lengths and their differences, integers that are doubles themselves.) -/
def jsDiv (a b : ℚ) : JSNumber :=
  if b = 0 then
    if a = 0 then JSNumber.nan
    else if 0 < a then JSNumber.posInf
    else JSNumber.negInf
  else roundToDouble (a / b)

/-- JavaScript `x * c` for a finite constant `c`: the product of two finite
numbers is rounded to a double. -/
def jsMul (x : JSNumber) (c : ℚ) : JSNumber :=
  match x with
  | JSNumber.nan => JSNumber.nan
  | JSNumber.posInf =>
    if c = 0 then JSNumber.nan else if 0 < c then JSNumber.posInf else JSNumber.negInf
  | JSNumber.negInf =>
    if c = 0 then JSNumber.nan else if 0 < c then JSNumber.negInf else JSNumber.posInf
  | JSNumber.fin q => roundToDouble (q * c)

/-- The digits of `Number.prototype.toFixed(1)` for a non-negative finite
value: `n` is the integer closest to `10 * q` (the larger one on a tie), where
`q` is the exact value of the double, printed with its last digit behind the
decimal point. -/
def toFixed1Abs (q : ℚ) : String :=
  let n : Nat := (Int.floor (q * 10 + 1 / 2)).toNat
  toString (n / 10) ++ "." ++ toString (n % 10)

/-- The result of `Number.prototype.toFixed(1)`: `x.toFixed(1)`.  A non-finite
value is printed by name; a negative value is printed as `-` followed by the
digits of its absolute value.  (The exponent form used for values of
magnitude `10^21` and more is not modelled; the reports format values of
magnitude at most `100`.) -/
def toFixed1 (x : JSNumber) : String :=
  match x with
  | JSNumber.nan => "NaN"
  | JSNumber.posInf => "Infinity"
  | JSNumber.negInf => "-Infinity"
  | JSNumber.fin q => if q < 0 then "-" ++ toFixed1Abs (-q) else toFixed1Abs q

/-! ## JavaScript strings -/

/-- The characters removed by `String.prototype.trim`: the ECMAScript
`WhiteSpace` and `LineTerminator` code points. -/
def isTrimChar (c : Char) : Bool :=
  let n := c.toNat
  n == 0x09 || n == 0x0A || n == 0x0B || n == 0x0C || n == 0x0D ||
  n == 0x20 || n == 0xA0 || n == 0x1680 || (0x2000 ≤ n && n ≤ 0x200A) ||
  n == 0x2028 || n == 0x2029 || n == 0x202F || n == 0x205F || n == 0x3000 ||
  n == 0xFEFF

/-- The method `String.prototype.trim`: `s.trim()`. -/
def trim (s : String) : String :=
  String.mk ((((s.data.dropWhile isTrimChar).reverse).dropWhile isTrimChar).reverse)

/-! ## Equipment records -/

/-- An equipment object, as built by the form handler of `app.js` and
completed by `addEquipment` (`timestamp`, `lastUpdated`) and by the object
store (`id`, the key path of the store). -/
structure Equipment where
  id : Option Nat := none
  name : String
  type : String
  location : String
  status : String
  serialNumber : Option String := none
  notes : Option String := none
  timestamp : Option String := none
  lastUpdated : Option String := none
  deriving DecidableEq, Repr

/-! ## `generateComplianceReport` -/

/-- The filter predicate of `missingSerialNumbers`:
`!item.serialNumber || item.serialNumber.trim() === ''`. -/
def isMissingSerial (item : Equipment) : Bool :=
  match item.serialNumber with
  | none => true
  | some s => s == "" || trim s == ""

/-- The array `missingSerialNumbers` of `generateComplianceReport`. -/
def missingSerialNumbers (equipment : List Equipment) : List Equipment :=
  equipment.filter isMissingSerial

/-- The array `outOfService` of `generateComplianceReport`. -/
def outOfService (equipment : List Equipment) : List Equipment :=
  equipment.filter (fun item => item.status == "Out of Service")

/-- The array `maintenance` of `generateComplianceReport`. -/
def maintenance (equipment : List Equipment) : List Equipment :=
  equipment.filter (fun item => item.status == "Maintenance")

/-- The array `available` of `generateComplianceReport`. -/
def available (equipment : List Equipment) : List Equipment :=
  equipment.filter (fun item => item.status == "Available")

/-- The number formatted into `complianceScore`:
`(equipment.length - missingSerialNumbers.length - outOfService.length)
  / equipment.length * 100`. -/
def complianceScoreValue (equipment : List Equipment) : JSNumber :=
  jsMul
    (jsDiv
      ((equipment.length : ℚ) - (missingSerialNumbers equipment).length
        - (outOfService equipment).length)
      (equipment.length : ℚ))
    100

/-- The constant `complianceScore` of `generateComplianceReport`: the score
formatted by `.toFixed(1)`. -/
def complianceScore (equipment : List Equipment) : String :=
  toFixed1 (complianceScoreValue equipment)

/-- The number formatted into a `Percentage` cell of the Readiness Summary:
`bucket.length / equipment.length * 100`. -/
def readinessPercentValue (bucket equipment : List Equipment) : JSNumber :=
  jsMul (jsDiv (bucket.length : ℚ) (equipment.length : ℚ)) 100

/-- A `Percentage` cell of the Readiness Summary (without the `%` sign):
`(bucket.length / equipment.length * 100).toFixed(1)`. -/
def readinessPercent (bucket equipment : List Equipment) : String :=
  toFixed1 (readinessPercentValue bucket equipment)

/-! ## Plain objects used as maps -/

/-- The property names that a plain object `{}` inherits from
`Object.prototype` (ECMAScript, with the legacy accessors of browsers). -/
def objectPrototypeKeys : List String :=
  ["constructor", "__defineGetter__", "__defineSetter__", "hasOwnProperty",
    "__lookupGetter__", "__lookupSetter__", "isPrototypeOf", "propertyIsEnumerable",
    "toString", "valueOf", "__proto__", "toLocaleString"]

/-- JavaScript `x + 1` on a number. -/
def jsSucc (x : JSNumber) : JSNumber :=
  match x with
  | JSNumber.fin q => JSNumber.fin (q + 1)
  | other => other

/-- The own properties of an object whose values are numbers, in the order in
which they were created. -/
abbrev CountObject := List (String × JSNumber)

/-- The statement `counts[key]++`.  An own property is incremented.  For a
key that is not an own property the old value (`undefined`, or a function or
object inherited from `Object.prototype`) converts to `NaN`, and the
assignment creates the own property `key` with value `NaN`; only the
inherited setter `__proto__` ignores the number and creates nothing. -/
def incrementCount (counts : CountObject) (key : String) : CountObject :=
  if counts.any (fun p => p.1 == key) then
    counts.map (fun p => if p.1 == key then (p.1, jsSucc p.2) else p)
  else if key == "__proto__" then counts
  else counts ++ [(key, JSNumber.nan)]

/-! ## `generateStatusReport` -/

/-- The object literal that initialises `statusCounts`. -/
def initialStatusCounts : CountObject :=
  [("Available", JSNumber.fin 0), ("In Use", JSNumber.fin 0),
    ("Maintenance", JSNumber.fin 0), ("Out of Service", JSNumber.fin 0)]

/-- The object `statusCounts` of `generateStatusReport` after the loop
`equipment.forEach(item => { statusCounts[item.status]++; })`. -/
def statusCounts (equipment : List Equipment) : CountObject :=
  equipment.foldl (fun counts item => incrementCount counts item.status) initialStatusCounts

/-- The closed enumeration of statuses. -/
def statusEnumeration : List String :=
  ["Available", "In Use", "Maintenance", "Out of Service"]

/-- An object with the four status keys and natural-number counts. -/
def fourCounts (a b c d : ℕ) : CountObject :=
  [("Available", JSNumber.fin a), ("In Use", JSNumber.fin b),
    ("Maintenance", JSNumber.fin c), ("Out of Service", JSNumber.fin d)]

/-! ## `filterEquipment` -/

/-- The method `String.prototype.includes`: `s.includes(t)` holds when `t`
occurs in `s` as a contiguous run.  (JavaScript compares UTF-16 code units;
between well-formed strings a run of code units that spells `t` is a run of
whole code points.) -/
def includes (s t : String) : Bool :=
  decide (t.data <:+: s.data)

/-- The callback of the search filter, for the lower-cased `searchTerm`:
`e.name.toLowerCase().includes(searchTerm) ||
 e.type.toLowerCase().includes(searchTerm) ||
 e.location.toLowerCase().includes(searchTerm) ||
 (e.serialNumber && e.serialNumber.toLowerCase().includes(searchTerm))`.
The function `toLowerCase` stands for `String.prototype.toLowerCase`, the
lower-casing of the JavaScript engine. -/
def matchesSearch (toLowerCase : String → String) (searchTerm : String) (e : Equipment) :
    Bool :=
  includes (toLowerCase e.name) searchTerm ||
  includes (toLowerCase e.type) searchTerm ||
  includes (toLowerCase e.location) searchTerm ||
  (match e.serialNumber with
   | none => false
   | some s => s != "" && includes (toLowerCase s) searchTerm)

/-- The list that `filterEquipment` hands to `displayEquipment`, as a
function of the three form values (`searchInput`, `filterStatus`,
`filterType`) and of the records returned by `getAllEquipment`. -/
def filterEquipment (toLowerCase : String → String)
    (searchInput statusFilter typeFilter : String) (equipment : List Equipment) :
    List Equipment :=
  let searchTerm := toLowerCase searchInput
  let filtered := equipment
  let filtered :=
    if searchTerm != "" then filtered.filter (matchesSearch toLowerCase searchTerm)
    else filtered
  let filtered :=
    if statusFilter != "" then filtered.filter (fun e => e.status == statusFilter)
    else filtered
  let filtered :=
    if typeFilter != "" then filtered.filter (fun e => e.type == typeFilter)
    else filtered
  filtered

/-- A lower-casing of the ASCII letters, used as a concrete instance of
`toLowerCase`. -/
def asciiToLowerCase (s : String) : String :=
  String.mk (s.data.map Char.toLower)

/-! ## Grouping: `generateLocationReport` and `generateTypeReport` -/

/-- An exception that ends the running function. -/
inductive JSError where
  | typeError : JSError
  deriving DecidableEq, Repr

/-- The own properties of an object whose values are arrays of records, in
the order in which they were created. -/
abbrev GroupObject := List (String × List Equipment)

/-- The body of the grouping loop for one record,
`if (!groups[key]) { groups[key] = []; } groups[key].push(item);`.
An own property holds an array (truthy), and the record is pushed on it.  A
key inherited from `Object.prototype` reads as a function or an object: it is
truthy, so no array is created, and it has no method `push`, so the call
throws a `TypeError`.  Any other key reads as `undefined` and gets a new
array. -/
def addToGroup (groups : GroupObject) (key : String) (item : Equipment) :
    Except JSError GroupObject :=
  if groups.any (fun p => p.1 == key) then
    Except.ok (groups.map (fun p => if p.1 == key then (p.1, p.2 ++ [item]) else p))
  else if objectPrototypeKeys.contains key then
    Except.error JSError.typeError
  else
    Except.ok (groups ++ [(key, [item])])

/-- The grouping loop
`equipment.forEach(item => { if (!groups[key(item)]) ...; groups[key(item)].push(item); })`
started on the empty object. -/
def groupBy (key : Equipment → String) (equipment : List Equipment) :
    Except JSError GroupObject :=
  equipment.foldlM (fun groups item => addToGroup groups (key item) item) []

/-- The object `locationGroups` of `generateLocationReport`. -/
def locationGroups (equipment : List Equipment) : Except JSError GroupObject :=
  groupBy (fun item => item.location) equipment

/-- The object `typeGroups` of `generateTypeReport`. -/
def typeGroups (equipment : List Equipment) : Except JSError GroupObject :=
  groupBy (fun item => item.type) equipment

/-- The value of a run of decimal digits. -/
def digitsValue (cs : List Char) : Nat :=
  cs.foldl (fun n c => n * 10 + (c.toNat - 48)) 0

/-- The array index that a property key denotes, if any: the key is the
canonical decimal numeral (no leading zero) of an integer below `2^32 - 1`. -/
def arrayIndex? (key : String) : Option Nat :=
  if key.data ≠ [] ∧ key.data.all Char.isDigit = true ∧
      (key.data = ['0'] ∨ key.data.head? ≠ some '0') then
    if digitsValue key.data < 2 ^ 32 - 1 then some (digitsValue key.data) else none
  else none

/-- The result of `Object.keys(groups)`: the array-index keys in ascending
numeric order, then the other keys in order of creation. -/
def objectKeys (groups : GroupObject) : List String :=
  let keys := groups.map Prod.fst
  (keys.filter (fun k => (arrayIndex? k).isSome)).insertionSort
      (fun a b => (arrayIndex? a).getD 0 ≤ (arrayIndex? b).getD 0)
    ++ keys.filter (fun k => !(arrayIndex? k).isSome)

/-- The UTF-16 code units of a character. -/
def charUnits (c : Char) : List Nat :=
  if c.toNat < 0x10000 then [c.toNat]
  else [0xD800 + (c.toNat - 0x10000) / 0x400, 0xDC00 + (c.toNat - 0x10000) % 0x400]

/-- The UTF-16 code units of a string. -/
def utf16Units (s : String) : List Nat :=
  (s.data.map charUnits).flatten

/-- Lexicographic "less than or equal" on sequences of code units. -/
def unitsLe : List Nat → List Nat → Bool
  | [], _ => true
  | _ :: _, [] => false
  | a :: as, b :: bs => decide (a < b) || (a == b && unitsLe as bs)

/-- The order of the default comparison of `Array.prototype.sort`: `a` does
not come after `b` when its code units are lexicographically at most those
of `b`. -/
def jsStringLe (a b : String) : Bool :=
  unitsLe (utf16Units a) (utf16Units b)

/-- The method `Array.prototype.sort()` without a comparison function, on an
array of strings: a stable sort by code units. -/
def jsSort (xs : List String) : List String :=
  xs.insertionSort (fun a b => jsStringLe a b = true)

/-- The keys that `generateLocationReport` iterates:
`Object.keys(locationGroups).sort()`. -/
def locationReportKeys (equipment : List Equipment) : Except JSError (List String) :=
  (locationGroups equipment).map (fun groups => jsSort (objectKeys groups))

/-- The keys that each of the two loops of `generateTypeReport` iterates:
`Object.keys(typeGroups).sort()`. -/
def typeReportKeys (equipment : List Equipment) : Except JSError (List String) :=
  (typeGroups equipment).map (fun groups => jsSort (objectKeys groups))

/-- Four records at three locations, one of them a number. -/
def stationRecords : List Equipment :=
  [ { name := "Pump 2", type := "Pump", location := "Station 2", status := "In Use" },
    { name := "Axe 4", type := "Tool", location := "10", status := "Available" },
    { name := "Ladder 1", type := "Ladder", location := "Station 2", status := "Available" },
    { name := "Hose 3", type := "Hose", location := "Depot", status := "Maintenance" } ]

/-- One record stored at the location named `constructor`. -/
def constructorLocationRecords : List Equipment :=
  [ { name := "Axe 4", type := "Tool", location := "constructor", status := "Available" } ]

/-- One record of the type named `constructor`. -/
def constructorTypeRecords : List Equipment :=
  [ { name := "Axe 4", type := "constructor", location := "Station 1", status := "Available" } ]

/-! ## The object store

The database of `app.js` is one IndexedDB object store, created by `initDB`
with `{ keyPath: 'id', autoIncrement: true }`.  The store is modelled after
the IndexedDB specification: a list of records (key and value) in ascending
order of key, and the current number of the key generator. -/

/-- The error of a failed store request. -/
inductive StoreError where
  | constraintError : StoreError
  deriving DecidableEq, Repr

/-- The object store `equipment`. -/
structure ObjectStore where
  records : List (Nat × Equipment)
  currentNumber : Nat
  deriving DecidableEq, Repr

/-- The store that the `onupgradeneeded` handler of `initDB` creates: no
record, key generator at `1`. -/
def emptyStore : ObjectStore :=
  { records := [], currentNumber := 1 }

/-- The function `initDB`: opening the database creates the object store when
it does not exist yet, and leaves an existing store as it is. -/
def initDB (existing : Option ObjectStore) : ObjectStore :=
  match existing with
  | none => emptyStore
  | some store => store

/-- Storing a value under a key, in key order; a record with the same key is
replaced. -/
def upsertRecord (key : Nat) (value : Equipment) :
    List (Nat × Equipment) → List (Nat × Equipment)
  | [] => [(key, value)]
  | (k, v) :: rest =>
    if key < k then (key, value) :: (k, v) :: rest
    else if key = k then (key, value) :: rest
    else (k, v) :: upsertRecord key value rest

/-- The largest number a key generator produces. -/
def maxGeneratedKey : Nat := 2 ^ 53

/-- The IndexedDB operation "store a record" on a store with key path `id`
and a key generator.  A value without `id` gets the current number of the
generator as key, written into its `id`; the generator fails beyond
`2 ^ 53`.  A value with an `id` is stored under it, and the generator moves
past that key.  With `noOverwrite` (the method `add`) an existing key is a
`ConstraintError`.  A failed request leaves the store unchanged. -/
def storeRecord (store : ObjectStore) (value : Equipment) (noOverwrite : Bool) :
    Except StoreError (Nat × ObjectStore) :=
  match value.id with
  | none =>
    if store.currentNumber > maxGeneratedKey then Except.error StoreError.constraintError
    else if noOverwrite && store.records.any (fun p => p.1 == store.currentNumber) then
      Except.error StoreError.constraintError
    else
      Except.ok (store.currentNumber,
        { records :=
            upsertRecord store.currentNumber { value with id := some store.currentNumber }
              store.records,
          currentNumber := store.currentNumber + 1 })
  | some key =>
    if noOverwrite && store.records.any (fun p => p.1 == key) then
      Except.error StoreError.constraintError
    else
      Except.ok (key,
        { records := upsertRecord key value store.records,
          currentNumber :=
            if min key maxGeneratedKey ≥ store.currentNumber then min key maxGeneratedKey + 1
            else store.currentNumber })

/-- The request `objectStore.add(value)`. -/
def ObjectStore.add (store : ObjectStore) (value : Equipment) :
    Except StoreError (Nat × ObjectStore) :=
  storeRecord store value true

/-- The request `objectStore.put(value)`. -/
def ObjectStore.put (store : ObjectStore) (value : Equipment) :
    Except StoreError (Nat × ObjectStore) :=
  storeRecord store value false

/-- The request `objectStore.get(key)`; `none` is the result `undefined`. -/
def ObjectStore.get (store : ObjectStore) (key : Nat) : Option Equipment :=
  store.records.lookup key

/-- The request `objectStore.getAll()`: the values in ascending key order. -/
def ObjectStore.getAll (store : ObjectStore) : List Equipment :=
  store.records.map Prod.snd

/-- The request `objectStore.delete(key)`. -/
def ObjectStore.delete (store : ObjectStore) (key : Nat) : ObjectStore :=
  { store with records := store.records.filter (fun p => p.1 != key) }

/-- The invariant of an object store with key path `id`: keys strictly
ascending, every value carries its key as `id`, and the key generator is
beyond every key. -/
def ObjectStore.WF (store : ObjectStore) : Prop :=
  (store.records.map Prod.fst).Pairwise (fun a b => a < b) ∧
    (∀ p ∈ store.records, p.2.id = some p.1) ∧
    (∀ p ∈ store.records, p.1 < store.currentNumber)

instance (store : ObjectStore) : Decidable store.WF := by
  unfold ObjectStore.WF
  exact inferInstance

/-! ## The data-access functions of `app.js` -/

/-- The state in which a promise returned by a data-access function ends up
once its transaction has run: resolved, rejected, or never settled. -/
inductive Promise (α : Type) where
  | resolved (value : α) : Promise α
  | rejected (error : StoreError) : Promise α
  | pending : Promise α
  deriving DecidableEq, Repr

/-- The function `addEquipment`; `now₁` and `now₂` are the results of its two
calls of `new Date().toISOString()`.  It returns the promise and the store
after the transaction. -/
def addEquipment (store : ObjectStore) (equipment : Equipment) (now₁ now₂ : String) :
    Promise Nat × ObjectStore :=
  let equipment := { equipment with timestamp := some now₁ }
  let equipment := { equipment with lastUpdated := some now₂ }
  match store.add equipment with
  | Except.ok (key, store') => (Promise.resolved key, store')
  | Except.error e => (Promise.rejected e, store)

/-- The function `getAllEquipment`. -/
def getAllEquipment (store : ObjectStore) : Promise (List Equipment) :=
  Promise.resolved store.getAll

/-- The record that `editEquipment` reads with `objectStore.get(id)` before
it fills the form. -/
def editEquipment (store : ObjectStore) (id : Nat) : Option Equipment :=
  store.get id

/-- The object `updatedData` passed to `updateEquipment`: each property is
present (`some`) or not supplied (`none`). -/
structure EquipmentUpdate where
  id : Option Nat := none
  name : Option String := none
  type : Option String := none
  location : Option String := none
  status : Option String := none
  serialNumber : Option String := none
  notes : Option String := none
  timestamp : Option String := none
  lastUpdated : Option String := none
  deriving DecidableEq, Repr

/-- The call `Object.assign(data, updatedData)`: every property that
`updatedData` has is copied onto `data`, the `id` included. -/
def objectAssign (data : Equipment) (updatedData : EquipmentUpdate) : Equipment :=
  { id :=
      match updatedData.id with
      | some k => some k
      | none => data.id
    name := updatedData.name.getD data.name
    type := updatedData.type.getD data.type
    location := updatedData.location.getD data.location
    status := updatedData.status.getD data.status
    serialNumber :=
      match updatedData.serialNumber with
      | some s => some s
      | none => data.serialNumber
    notes :=
      match updatedData.notes with
      | some s => some s
      | none => data.notes
    timestamp :=
      match updatedData.timestamp with
      | some s => some s
      | none => data.timestamp
    lastUpdated :=
      match updatedData.lastUpdated with
      | some s => some s
      | none => data.lastUpdated }

/-- The function `updateEquipment`; `now` is the result of
`new Date().toISOString()`.  When `get` finds no record, `data` is
`undefined` and `Object.assign(data, updatedData)` throws inside the success
callback: the promise is never settled and nothing is written.  Otherwise
the merged object is put under the `id` it carries after the merge. -/
def updateEquipment (store : ObjectStore) (id : Nat) (updatedData : EquipmentUpdate)
    (now : String) : Promise Nat × ObjectStore :=
  match store.get id with
  | none => (Promise.pending, store)
  | some data =>
    let data := objectAssign data updatedData
    let data := { data with lastUpdated := some now }
    match store.put data with
    | Except.ok (key, store') => (Promise.resolved key, store')
    | Except.error e => (Promise.rejected e, store)

/-- The function `deleteEquipment`. -/
def deleteEquipment (store : ObjectStore) (id : Nat) : Promise Unit × ObjectStore :=
  (Promise.resolved (), store.delete id)

/-- The update `{ status: "Maintenance" }`. -/
def statusMaintenance : EquipmentUpdate :=
  { status := some "Maintenance" }

/-- The store after the two scenario records were added at the instants
`t1` to `t4`. -/
def scenarioStore : ObjectStore :=
  { records :=
      [ (1, { id := some 1, name := "Ladder 1", type := "Ladder", location := "Station 1",
              status := "Available", timestamp := some "t1", lastUpdated := some "t2" }),
        (2, { id := some 2, name := "Pump 2", type := "Pump", location := "Station 2",
              status := "Out of Service", serialNumber := some "",
              timestamp := some "t3", lastUpdated := some "t4" }) ],
    currentNumber := 3 }

/-- A record as the form handler builds it. -/
def hoseInput : Equipment :=
  { name := "Hose 3", type := "Hose", location := "Station 1", status := "Available",
    serialNumber := some "H-3", notes := some "" }

/-! ## Scenario data -/

/-- The two-record scenario of the specification: `Ladder 1` has no
`serialNumber` property, `Pump 2` has the empty serial number. -/
def scenarioRecords : List Equipment :=
  [ { name := "Ladder 1", type := "Ladder", location := "Station 1", status := "Available" },
    { name := "Pump 2", type := "Pump", location := "Station 2", status := "Out of Service",
      serialNumber := some "" } ]

/-- A single available record whose serial number is one space. -/
def blankSerialRecords : List Equipment :=
  [ { name := "Hose 3", type := "Hose", location := "Station 1", status := "Available",
      serialNumber := some " " } ]

/-! ## Definitions that follow the wording of the specification -/

/-- The reading of "missing serial number" in the specification: the
`serialNumber` property is absent or is the empty string, and nothing else. -/
def specMissingSerial (item : Equipment) : Bool :=
  match item.serialNumber with
  | none => true
  | some s => s == ""

/-- The compliance score as the specification words it:
`(total - missingSerial - outOfService) / total * 100`, with `missingSerial`
counting the records of `specMissingSerial`. -/
def specComplianceScoreValue (equipment : List Equipment) : JSNumber :=
  jsMul
    (jsDiv
      ((equipment.length : ℚ) - (equipment.countP specMissingSerial : ℕ)
        - (equipment.countP (fun item => item.status == "Out of Service") : ℕ))
      (equipment.length : ℚ))
    100

/-- A serial number that is absent, empty, or made of white space only. -/
def serialAbsentOrBlank (item : Equipment) : Bool :=
  match item.serialNumber with
  | none => true
  | some s => s.data.all isTrimChar

/-- The validity of an input record in the specification: the four required
fields are present (a field left out of the form is the empty string) and
the status is an enumerated one. -/
def specValidInput (equipment : Equipment) : Bool :=
  equipment.name != "" && equipment.type != "" && equipment.location != "" &&
    equipment.status != "" && statusEnumeration.contains equipment.status

/-- A form record with no name. -/
def namelessInput : Equipment :=
  { name := "", type := "Hose", location := "Station 1", status := "Available",
    serialNumber := some "", notes := some "" }

/-- A form record whose status is outside the enumeration. -/
def brokenStatusInput : Equipment :=
  { name := "Hose 3", type := "Hose", location := "Station 1", status := "Broken",
    serialNumber := some "", notes := some "" }

/-- The store states that a run of the application can reach: the store
created by `initDB`, followed by any calls of `addEquipment`,
`updateEquipment` and `deleteEquipment` (with any arguments, at any
instants). -/
inductive Reachable : ObjectStore → Prop where
  | init : Reachable (initDB none)
  | add (store : ObjectStore) (equipment : Equipment) (now₁ now₂ : String) :
      Reachable store → Reachable (addEquipment store equipment now₁ now₂).2
  | update (store : ObjectStore) (id : Nat) (updatedData : EquipmentUpdate) (now : String) :
      Reachable store → Reachable (updateEquipment store id updatedData now).2
  | delete (store : ObjectStore) (id : Nat) :
      Reachable store → Reachable (deleteEquipment store id).2

/-- The part of the store invariant that concerns the keys: strictly
ascending, and equal to the `id` of the value they hold. -/
def KeysOk (records : List (Nat × Equipment)) : Prop :=
  (records.map Prod.fst).Pairwise (fun a b => a < b) ∧ ∀ p ∈ records, p.2.id = some p.1

/-! ## `exportToCSV` -/

/-- The call `.replace(/,/g, ';')`: every comma becomes a semicolon. -/
def replaceCommas (s : String) : String :=
  String.mk (s.data.map (fun c => if c = ',' then ';' else c))

/-- The first line of the text that `exportToCSV` builds, with its line
break. -/
def csvHeader : String :=
  "Equipment Name,Type,Location,Status,Serial Number,Notes,Added Date,Last Updated\n"

/-- The array `row` that `exportToCSV` builds for one record.  The function
`toLocaleDateString` stands for `new Date(x).toLocaleDateString()`, which
depends on the locale of the browser. -/
def csvFields (toLocaleDateString : Option String → String) (item : Equipment) :
    List String :=
  [ item.name,
    item.type,
    item.location,
    item.status,
    (match item.serialNumber with
     | some s => if s != "" then s else ""
     | none => ""),
    replaceCommas
      (match item.notes with
       | some s => if s != "" then s else ""
       | none => ""),
    toLocaleDateString item.timestamp,
    toLocaleDateString item.lastUpdated ]

/-- The text of one row: every field between double quotes, the fields joined
by commas, `row.map(field => '"' + field + '"').join(',')`. -/
def csvRow (row : List String) : String :=
  ",".intercalate (row.map (fun field => "\"" ++ field ++ "\""))

/-- The text `csv` that `exportToCSV` puts into the downloaded file; `none`
when there is no record (the function alerts and returns). -/
def exportToCSV (toLocaleDateString : Option String → String) (equipment : List Equipment) :
    Option String :=
  if equipment.length = 0 then none
  else
    some (equipment.foldl
      (fun csv item => csv ++ (csvRow (csvFields toLocaleDateString item) ++ "\n")) csvHeader)

/-- The first line of a text: the characters before its first line break. -/
def firstLine (text : String) : String :=
  String.mk (text.data.takeWhile (fun c => c != '\n'))

/-- The header row as the specification quotes it. -/
def specHeaderRow : String :=
  "Name,Type,Location,Status,Serial Number,Notes,Added Date,Last Updated"

/-- A date formatter that prints the stored text, used as a concrete
instance of `toLocaleDateString`. -/
def sampleDate (stamp : Option String) : String :=
  match stamp with
  | some s => s
  | none => "Invalid Date"

/-- One record whose name contains a double quote, a comma and a double
quote. -/
def quotedNameRecords : List Equipment :=
  [ { name := "Hose\",\"3", type := "Hose", location := "Station 1", status := "Available" } ]

/-- One record whose type contains a double quote, a comma and a double
quote. -/
def quotedTypeRecords : List Equipment :=
  [ { name := "Hose", type := "3\",\"Hose", location := "Station 1", status := "Available" } ]

/-- The round trip of the specification for a reader `parseRows` of CSV text
(a list of rows, each a list of fields): after the header row come exactly
the rows of the exported records, and the first six fields of each row are
the name, type, location, status, serial number and notes of its record, with
the commas of the notes replaced by semicolons. -/
def RoundTrips (parseRows : String → List (List String))
    (toLocaleDateString : Option String → String) (equipment : List Equipment) : Prop :=
  ∀ csv, exportToCSV toLocaleDateString equipment = some csv →
    (parseRows csv).tail.map (fun row => row.take 6) =
      equipment.map (fun item =>
        [item.name, item.type, item.location, item.status,
          item.serialNumber.getD "", replaceCommas (item.notes.getD "")])

/-- An available record with a serial number. -/
def fleetHose : Equipment :=
  { name := "Hose", type := "Hose", location := "Station 1", status := "Available",
    serialNumber := some "H-1" }

/-- An out-of-service record with a serial number. -/
def fleetPump : Equipment :=
  { name := "Pump", type := "Pump", location := "Station 2", status := "Out of Service",
    serialNumber := some "P-1" }

/-- A fleet of 80 records with serial numbers: 23 available, 57 out of
service. -/
def fleetRecords : List Equipment :=
  List.replicate 23 fleetHose ++ List.replicate 57 fleetPump

/-! # Theorems -/

/-! ## Helper lemmas: strings and numbers -/

theorem trim_eq_empty_iff (s : String) : trim s = "" ↔ s.data.all isTrimChar = true := by
  have h : trim s = "" ↔
      (((s.data.dropWhile isTrimChar).reverse).dropWhile isTrimChar).reverse = [] := by
    unfold trim
    constructor
    · intro h
      exact congrArg String.data h
    · intro h
      rw [h]
  rw [h, List.reverse_eq_nil_iff, List.dropWhile_eq_nil_iff]
  constructor
  · intro h1
    have h2 : s.data.dropWhile isTrimChar = [] := by
      cases hd : s.data.dropWhile isTrimChar with
      | nil => rfl
      | cons a t =>
        have ha : isTrimChar a = true := h1 a (by rw [hd]; simp)
        have hna := List.head_dropWhile_not isTrimChar s.data (by rw [hd]; simp)
        simp [hd] at hna
        rw [ha] at hna
        exact absurd hna (by simp)
    rw [List.dropWhile_eq_nil_iff] at h2
    simpa using h2
  · intro h1 x hx
    have h2 : s.data.dropWhile isTrimChar = [] := by
      rw [List.dropWhile_eq_nil_iff]
      simpa using h1
    rw [h2] at hx
    simp at hx

theorem isMissingSerial_eq (item : Equipment) :
    isMissingSerial item = serialAbsentOrBlank item := by
  unfold isMissingSerial serialAbsentOrBlank
  cases item.serialNumber with
  | none => rfl
  | some s =>
    simp only
    by_cases hb : s.data.all isTrimChar = true
    · rw [hb]
      have := (trim_eq_empty_iff s).2 hb
      simp [this]
    · have hne : ¬ trim s = "" := fun h => hb ((trim_eq_empty_iff s).1 h)
      have hs : ¬ s = "" := by
        intro h
        apply hb
        rw [h]
        rfl
      simp only [Bool.not_eq_true] at hb
      rw [hb]
      simp [hne, hs]

/-! ## Helper lemmas: rounding to doubles -/

theorem roundHalfEven_intCast (n : ℤ) : roundHalfEven (n : ℚ) = n := by
  simp [roundHalfEven]

theorem roundHalfEven_le (x : ℚ) (n : ℤ) (h : x ≤ n) : roundHalfEven x ≤ n := by
  have hfl : Int.floor x ≤ n := by
    have := Int.floor_le x
    exact_mod_cast (this.trans h)
  have hup : 0 < x - Int.floor x → Int.floor x + 1 ≤ n := by
    intro hpos
    have h1 : (Int.floor x : ℚ) < n := by linarith
    have h2 : Int.floor x < n := by exact_mod_cast h1
    omega
  unfold roundHalfEven
  split_ifs with h1 h2 h3
  · exact hfl
  · exact hup (by linarith)
  · exact hfl
  · exact hup (by linarith)

theorem roundHalfEven_nonneg (x : ℚ) (h : 0 ≤ x) : 0 ≤ roundHalfEven x := by
  have hfl : 0 ≤ Int.floor x := Int.floor_nonneg.2 h
  unfold roundHalfEven
  split_ifs <;> omega

theorem abs_roundHalfEven_sub (x : ℚ) : |(roundHalfEven x : ℚ) - x| ≤ 1 / 2 := by
  have h1 := Int.floor_le x
  have h2 := Int.lt_floor_add_one x
  unfold roundHalfEven
  rw [abs_le]
  split_ifs with ha hb hc
  · constructor <;> linarith
  · push_cast
    constructor <;> linarith
  · constructor <;> linarith
  · push_cast
    constructor <;> linarith

theorem two_zpow_pos (e : ℤ) : (0 : ℚ) < 2 ^ e := zpow_pos (by norm_num) e

theorem ulpExponent_le (a : ℚ) (ha : 0 < a) (E : ℤ) (h : a < 2 ^ (E + 1)) :
    ulpExponent a ≤ max (E - 52) (-1074) := by
  have hlog : Int.log 2 a < E + 1 := by
    have := (Int.lt_zpow_iff_log_lt (R := ℚ) (b := 2) (by norm_num) ha (x := E + 1)).1
      (by exact_mod_cast h)
    exact this
  unfold ulpExponent
  omega

theorem roundMagnitude_nonneg (a : ℚ) (ha : 0 ≤ a) : 0 ≤ roundMagnitude a := by
  unfold roundMagnitude
  have h1 : (0 : ℚ) ≤ a / 2 ^ ulpExponent a := div_nonneg ha (two_zpow_pos _).le
  have h2 : (0 : ℚ) ≤ (roundHalfEven (a / 2 ^ ulpExponent a) : ℚ) := by
    exact_mod_cast roundHalfEven_nonneg _ h1
  exact mul_nonneg h2 (two_zpow_pos _).le

theorem abs_roundMagnitude_sub (a : ℚ) :
    |roundMagnitude a - a| ≤ 2 ^ ulpExponent a / 2 := by
  have hp := two_zpow_pos (ulpExponent a)
  have h := abs_roundHalfEven_sub (a / 2 ^ ulpExponent a)
  have e : roundMagnitude a - a =
      ((roundHalfEven (a / 2 ^ ulpExponent a) : ℚ) - a / 2 ^ ulpExponent a)
        * 2 ^ ulpExponent a := by
    unfold roundMagnitude
    field_simp
  rw [e, abs_mul, abs_of_pos hp]
  calc |(roundHalfEven (a / 2 ^ ulpExponent a) : ℚ) - a / 2 ^ ulpExponent a|
        * 2 ^ ulpExponent a
      ≤ 1 / 2 * 2 ^ ulpExponent a := mul_le_mul_of_nonneg_right h hp.le
    _ = 2 ^ ulpExponent a / 2 := by ring

theorem zpow_eq_natCast (J e : ℤ) (h : e ≤ J) :
    (2 : ℚ) ^ J = (((2 ^ (J - e).toNat : ℕ) : ℤ) : ℚ) * 2 ^ e := by
  have h1 : ((J - e).toNat : ℤ) = J - e := Int.toNat_of_nonneg (by omega)
  have h2 : (2 : ℚ) ^ (J - e) = 2 ^ (J - e).toNat := by
    rw [← zpow_natCast, h1]
  push_cast
  rw [← h2, ← zpow_add₀ (by norm_num : (2 : ℚ) ≠ 0)]
  congr 1
  omega

theorem roundMagnitude_le (a : ℚ) (n : ℤ) (J : ℤ) (hJ : ulpExponent a ≤ J)
    (h : a ≤ n * 2 ^ J) : roundMagnitude a ≤ n * 2 ^ J := by
  have hp := two_zpow_pos (ulpExponent a)
  have hz := zpow_eq_natCast J (ulpExponent a) hJ
  have h1 : a / 2 ^ ulpExponent a ≤
      ((n * ((2 ^ (J - ulpExponent a).toNat : ℕ) : ℤ) : ℤ) : ℚ) := by
    rw [div_le_iff₀ hp]
    push_cast
    rw [hz] at h
    push_cast at h
    linarith
  have h2 := roundHalfEven_le _ _ h1
  have h3 : (roundHalfEven (a / 2 ^ ulpExponent a) : ℚ) ≤
      ((n * ((2 ^ (J - ulpExponent a).toNat : ℕ) : ℤ) : ℤ) : ℚ) := by exact_mod_cast h2
  unfold roundMagnitude
  calc (roundHalfEven (a / 2 ^ ulpExponent a) : ℚ) * 2 ^ ulpExponent a
      ≤ ((n * ((2 ^ (J - ulpExponent a).toNat : ℕ) : ℤ) : ℤ) : ℚ) * 2 ^ ulpExponent a :=
        mul_le_mul_of_nonneg_right h3 hp.le
    _ = n * 2 ^ J := by
        rw [hz]
        push_cast
        ring

theorem roundMagnitude_exact (n : ℤ) (J : ℤ) (hJ : ulpExponent (n * 2 ^ J) ≤ J) :
    roundMagnitude (n * 2 ^ J) = n * 2 ^ J := by
  have hp := two_zpow_pos (ulpExponent (n * 2 ^ J))
  have hz := zpow_eq_natCast J (ulpExponent (n * 2 ^ J)) hJ
  have h1 : (n : ℚ) * 2 ^ J / 2 ^ ulpExponent (n * 2 ^ J) =
      ((n * ((2 ^ (J - ulpExponent (n * 2 ^ J)).toNat : ℕ) : ℤ) : ℤ) : ℚ) := by
    rw [div_eq_iff hp.ne']
    conv_lhs => rw [hz]
    push_cast
    ring
  unfold roundMagnitude
  rw [h1, roundHalfEven_intCast]
  conv_rhs => rw [hz]
  push_cast
  ring


theorem roundToDouble_bounded (q : ℚ) (n : ℕ) (J E : ℤ) (hq : |q| ≤ n * 2 ^ J)
    (hlt : (n : ℚ) * 2 ^ J < 2 ^ (E + 1)) (hJ : max (E - 52) (-1074) ≤ J)
    (hE : E + 1 ≤ 1024) :
    ∃ r, roundToDouble q = JSNumber.fin r ∧ |r| ≤ n * 2 ^ J ∧
      |r - q| ≤ 2 ^ max (E - 52) (-1074) / 2 ∧ (0 ≤ q → 0 ≤ r) ∧ (q ≤ 0 → r ≤ 0) := by
  by_cases h0 : q = 0
  · subst h0
    refine ⟨0, by simp [roundToDouble], ?_, ?_, fun _ => le_refl _, fun _ => le_refl _⟩
    · simpa using hq
    · simp only [sub_self, abs_zero]
      exact (div_pos (two_zpow_pos _) (by norm_num)).le
  · have ha : 0 < |q| := abs_pos.2 h0
    have hulp : ulpExponent |q| ≤ max (E - 52) (-1074) :=
      ulpExponent_le |q| ha E (lt_of_le_of_lt hq hlt)
    have hm0 : 0 ≤ roundMagnitude |q| := roundMagnitude_nonneg _ ha.le
    have hmle : roundMagnitude |q| ≤ n * 2 ^ J := by
      have := roundMagnitude_le |q| (n : ℤ) J (hulp.trans hJ) (by exact_mod_cast hq)
      exact_mod_cast this
    have hfin : ¬ (2 : ℚ) ^ (1024 : ℤ) ≤ roundMagnitude |q| := by
      have h1 : (2 : ℚ) ^ (E + 1) ≤ 2 ^ (1024 : ℤ) := zpow_le_zpow_right₀ (by norm_num) hE
      intro h
      linarith
    have herr : abs (roundMagnitude (abs q) - abs q) ≤ 2 ^ max (E - 52) (-1074) / 2 := by
      have h1 := abs_roundMagnitude_sub (abs q)
      have h2 : (2 : ℚ) ^ ulpExponent (abs q) ≤ 2 ^ max (E - 52) (-1074) :=
        zpow_le_zpow_right₀ (by norm_num) hulp
      linarith
    rcases lt_or_gt_of_ne h0 with hneg | hpos
    · have hnp : ¬ 0 < q := not_lt.2 hneg.le
      refine ⟨-roundMagnitude |q|, by simp [roundToDouble, h0, hfin, hnp], ?_, ?_, ?_, ?_⟩
      · rw [abs_neg, abs_of_nonneg hm0]
        exact hmle
      · have e : -roundMagnitude |q| - q = -(roundMagnitude |q| - |q|) := by
          rw [abs_of_neg hneg]
          ring
        rw [e, abs_neg]
        exact herr
      · intro h
        exact absurd h (not_le.2 hneg)
      · intro _
        linarith
    · refine ⟨roundMagnitude |q|, by simp [roundToDouble, h0, hfin, hpos], ?_, ?_, ?_, ?_⟩
      · rw [abs_of_nonneg hm0]
        exact hmle
      · have e : roundMagnitude |q| - q = roundMagnitude |q| - |q| := by
          rw [abs_of_pos hpos]
        rw [e]
        exact herr
      · intro _
        exact hm0
      · intro h
        exact absurd h (not_le.2 hpos)

theorem roundToDouble_exact (k : ℤ) (J : ℤ) (hk : |k| < 2 ^ 53) (hJ : -1074 ≤ J)
    (hr : (|k| : ℚ) * 2 ^ J < 2 ^ (1024 : ℤ)) :
    roundToDouble (k * 2 ^ J) = JSNumber.fin (k * 2 ^ J) := by
  have hp := two_zpow_pos J
  by_cases h0 : (k : ℚ) * 2 ^ J = 0
  · simp [roundToDouble, h0]
  · have hk0 : k ≠ 0 := by
      rintro rfl
      simp at h0
    have habs : |(k : ℚ) * 2 ^ J| = ((|k| : ℤ) : ℚ) * 2 ^ J := by
      rw [abs_mul, abs_of_pos hp]
      push_cast
      rfl
    have ha : 0 < |(k : ℚ) * 2 ^ J| := abs_pos.2 h0
    have hlt : |(k : ℚ) * 2 ^ J| < 2 ^ (52 + J + 1) := by
      rw [habs]
      have h1 : ((|k| : ℤ) : ℚ) < 2 ^ 53 := by exact_mod_cast hk
      have h2 : (2 : ℚ) ^ (52 + J + 1) = 2 ^ 53 * 2 ^ J := by
        rw [show 52 + J + 1 = (53 : ℤ) + J by ring, zpow_add₀ (by norm_num : (2 : ℚ) ≠ 0)]
        norm_cast
      rw [h2]
      exact mul_lt_mul_of_pos_right h1 hp
    have hulp : ulpExponent |(k : ℚ) * 2 ^ J| ≤ J := by
      have := ulpExponent_le _ ha (52 + J) hlt
      have h2 : max (52 + J - 52) (-1074) ≤ J := by omega
      exact this.trans h2
    have hmag : roundMagnitude |(k : ℚ) * 2 ^ J| = |(k : ℚ) * 2 ^ J| := by
      rw [habs]
      rw [habs] at hulp
      exact roundMagnitude_exact (|k|) J hulp
    have hfin : ¬ (2 : ℚ) ^ (1024 : ℤ) ≤ |(k : ℚ) * 2 ^ J| := by
      rw [habs]
      push_cast
      exact not_le.2 hr
    unfold roundToDouble
    rw [if_neg h0, hmag, if_neg hfin]
    rcases lt_or_gt_of_ne h0 with hneg | hpos
    · have hnp : ¬ 0 < (k : ℚ) * 2 ^ J := not_lt.2 hneg.le
      rw [if_neg hnp, abs_of_neg hneg, neg_neg]
    · rw [if_pos hpos, abs_of_pos hpos]

theorem roundToDouble_intCast (k : ℤ) (hk : |k| < 2 ^ 53) :
    roundToDouble (k : ℚ) = JSNumber.fin k := by
  have h := roundToDouble_exact k 0 hk (by norm_num) (by
    have h1 : ((|k| : ℤ) : ℚ) < 2 ^ 53 := by exact_mod_cast hk
    have h2 : (2 : ℚ) ^ (53 : ℤ) ≤ 2 ^ (1024 : ℤ) :=
      zpow_le_zpow_right₀ (by norm_num) (by norm_num)
    have h3 : (2 : ℚ) ^ (53 : ℤ) = 2 ^ 53 := by norm_cast
    simp only [zpow_zero, mul_one]
    push_cast at h1
    rw [h3] at h2
    linarith)
  simpa using h


theorem ulpExponent_eq (a : ℚ) (ha : 0 < a) (E : ℤ) (h1 : 2 ^ E ≤ a) (h2 : a < 2 ^ (E + 1)) :
    ulpExponent a = max (E - 52) (-1074) := by
  have hlt : Int.log 2 a < E + 1 :=
    (Int.lt_zpow_iff_log_lt (R := ℚ) (b := 2) (by norm_num) ha (x := E + 1)).1
      (by exact_mod_cast h2)
  have hle : E ≤ Int.log 2 a :=
    (Int.zpow_le_iff_le_log (R := ℚ) (b := 2) (by norm_num) ha (x := E)).1
      (by exact_mod_cast h1)
  have : Int.log 2 a = E := by omega
  unfold ulpExponent
  rw [this]

theorem roundToDouble_of_pos (q : ℚ) (E : ℤ) (h1 : 2 ^ E ≤ q) (h2 : q < 2 ^ (E + 1))
    (hE0 : -1075 ≤ E) (hE : E + 1 < 1024) :
    roundToDouble q =
      JSNumber.fin
        ((roundHalfEven (q / 2 ^ max (E - 52) (-1074)) : ℚ) * 2 ^ max (E - 52) (-1074)) := by
  have hq : 0 < q := lt_of_lt_of_le (two_zpow_pos E) h1
  have habs : |q| = q := abs_of_pos hq
  have hu := ulpExponent_eq q hq E h1 h2
  have hle : roundMagnitude q ≤ ((1 : ℤ) : ℚ) * 2 ^ (E + 1) :=
    roundMagnitude_le q 1 (E + 1) (by rw [hu]; omega) (by simpa using h2.le)
  have hfin : ¬ (2 : ℚ) ^ (1024 : ℤ) ≤ roundMagnitude q := by
    have h3 : (2 : ℚ) ^ (E + 1) < 2 ^ (1024 : ℤ) := zpow_lt_zpow_right₀ (by norm_num) hE
    intro h
    simp only [Int.cast_one, one_mul] at hle
    linarith
  unfold roundToDouble
  rw [if_neg hq.ne', habs, if_neg hfin, if_pos hq]
  unfold roundMagnitude
  rw [hu]

theorem scaled_ratio (x : ℚ) (hx : |x| ≤ 1) :
    ∃ r, jsMul (roundToDouble x) 100 = JSNumber.fin r ∧ |r| ≤ 100 ∧
      |r - x * 100| ≤ 2 ^ (-45 : ℤ) ∧ (0 ≤ x → 0 ≤ r) ∧ (x ≤ 0 → r ≤ 0) := by
  obtain ⟨r1, h1, hb1, he1, hp1, hn1⟩ := roundToDouble_bounded x 1 0 0 (by simpa using hx)
    (by norm_num) (by norm_num) (by norm_num)
  have hb1' : |r1| ≤ 1 := by simpa using hb1
  have hy : |r1 * 100| ≤ ((25 : ℕ) : ℚ) * 2 ^ (2 : ℤ) := by
    rw [abs_mul]
    norm_num
    linarith
  obtain ⟨r2, h2, hb2, he2, hp2, hn2⟩ := roundToDouble_bounded (r1 * 100) 25 2 6 hy
    (by norm_num) (by norm_num) (by norm_num)
  refine ⟨r2, ?_, ?_, ?_, ?_, ?_⟩
  · rw [h1]
    exact h2
  · have : ((25 : ℕ) : ℚ) * 2 ^ (2 : ℤ) = 100 := by norm_num
    rw [this] at hb2
    exact hb2
  · have m1 : max ((0 : ℤ) - 52) (-1074) = -52 := by norm_num
    have m2 : max ((6 : ℤ) - 52) (-1074) = -46 := by norm_num
    rw [m1] at he1
    rw [m2] at he2
    have e : r2 - x * 100 = (r2 - r1 * 100) + (r1 - x) * 100 := by ring
    rw [e]
    have t1 := abs_add (r2 - r1 * 100) ((r1 - x) * 100)
    have t2 : |(r1 - x) * 100| = |r1 - x| * 100 := by
      rw [abs_mul]
      norm_num
    have he1' : |r1 - x| ≤ 1 / 9007199254740992 := by
      refine he1.trans (le_of_eq ?_)
      norm_num
    have he2' : |r2 - r1 * 100| ≤ 1 / 140737488355328 := by
      refine he2.trans (le_of_eq ?_)
      norm_num
    have c1 : (1 : ℚ) / 140737488355328 + 1 / 9007199254740992 * 100 ≤ 2 ^ (-45 : ℤ) := by
      norm_num
    refine le_trans ?_ c1
    rw [t2] at t1
    linarith
  · intro h
    exact hp2 (mul_nonneg (hp1 h) (by norm_num))
  · intro h
    exact hn2 (mul_nonpos_of_nonpos_of_nonneg (hn1 h) (by norm_num))

theorem roundToDouble_dyadic (k : ℤ) (J : ℤ) (hk : |k| < 2 ^ 53) (hJ : -1074 ≤ J)
    (hJ2 : J ≤ 970) : roundToDouble (k * 2 ^ J) = JSNumber.fin (k * 2 ^ J) := by
  apply roundToDouble_exact k J hk hJ
  have h1 : ((|k| : ℤ) : ℚ) < 2 ^ 53 := by exact_mod_cast hk
  have h2 : (2 : ℚ) ^ J ≤ 2 ^ (970 : ℤ) := zpow_le_zpow_right₀ (by norm_num) hJ2
  have h3 : (2 : ℚ) ^ (53 : ℤ) * 2 ^ (970 : ℤ) ≤ 2 ^ (1024 : ℤ) := by
    rw [← zpow_add₀ (by norm_num : (2 : ℚ) ≠ 0)]
    exact zpow_le_zpow_right₀ (by norm_num) (by norm_num)
  have h4 : (2 : ℚ) ^ (53 : ℤ) = 2 ^ 53 := by norm_cast
  have h5 : (0 : ℚ) ≤ ((|k| : ℤ) : ℚ) := by exact_mod_cast abs_nonneg k
  have hp := two_zpow_pos J
  push_cast at h1 h5
  calc (|(k : ℚ)|) * 2 ^ J < 2 ^ 53 * 2 ^ J := mul_lt_mul_of_pos_right h1 hp
    _ ≤ 2 ^ 53 * 2 ^ (970 : ℤ) := mul_le_mul_of_nonneg_left h2 (by positivity)
    _ ≤ 2 ^ (1024 : ℤ) := by
        rw [← h4]
        exact h3

theorem jsMul_jsDiv_dyadic (a b : ℚ) (hb : b ≠ 0) (k J k₂ : ℤ) (hx : a / b = k * 2 ^ J)
    (hk : |k| < 2 ^ 53) (hJ : -1074 ≤ J) (hJ2 : J ≤ 970) (hy : (k : ℚ) * 2 ^ J * 100 = k₂)
    (hk₂ : |k₂| < 2 ^ 53) : jsMul (jsDiv a b) 100 = JSNumber.fin k₂ := by
  unfold jsDiv
  rw [if_neg hb, hx, roundToDouble_dyadic k J hk hJ hJ2]
  show roundToDouble ((k : ℚ) * 2 ^ J * 100) = JSNumber.fin k₂
  rw [hy]
  exact roundToDouble_intCast k₂ hk₂

/-! ## Helper lemmas: the counts of the compliance report -/

theorem length_cast_pos (equipment : List Equipment) (h : equipment ≠ []) :
    (0 : ℚ) < (equipment.length : ℚ) := by
  have : 0 < equipment.length := List.length_pos.2 h
  exact_mod_cast this

theorem jsDiv_length_ne_nil (a : ℚ) (equipment : List Equipment) (h : equipment ≠ []) :
    jsDiv a (equipment.length : ℚ) = roundToDouble (a / (equipment.length : ℚ)) := by
  unfold jsDiv
  rw [if_neg (length_cast_pos equipment h).ne']

theorem missingSerialNumbers_length (equipment : List Equipment) :
    (missingSerialNumbers equipment).length = equipment.countP serialAbsentOrBlank := by
  unfold missingSerialNumbers
  rw [List.countP_eq_length_filter]
  congr 2
  funext item
  exact isMissingSerial_eq item

theorem complianceScoreValue_eq (equipment : List Equipment) :
    complianceScoreValue equipment =
      jsMul
        (jsDiv
          ((equipment.length : ℚ) - (equipment.countP serialAbsentOrBlank : ℕ)
            - (equipment.countP (fun item => item.status == "Out of Service") : ℕ))
          (equipment.length : ℚ))
        100 := by
  unfold complianceScoreValue
  rw [missingSerialNumbers_length]
  unfold outOfService
  rw [← List.countP_eq_length_filter]

theorem readinessPercentValue_eq (p : Equipment → Bool) (equipment : List Equipment) :
    readinessPercentValue (equipment.filter p) equipment =
      jsMul (jsDiv ((equipment.countP p : ℕ) : ℚ) (equipment.length : ℚ)) 100 := by
  unfold readinessPercentValue
  rw [← List.countP_eq_length_filter]

theorem complianceScoreValue_near (equipment : List Equipment) (h : equipment ≠ []) :
    ∃ q, complianceScoreValue equipment = JSNumber.fin q ∧ |q| ≤ 100 ∧
      |q - ((equipment.length : ℚ) - (equipment.countP serialAbsentOrBlank : ℕ)
            - (equipment.countP (fun item => item.status == "Out of Service") : ℕ))
          / (equipment.length : ℚ) * 100| ≤ 2 ^ (-45 : ℤ) := by
  have hpos := length_cast_pos equipment h
  have h1 : ((equipment.countP serialAbsentOrBlank : ℕ) : ℚ) ≤ equipment.length := by
    exact_mod_cast List.countP_le_length serialAbsentOrBlank
  have h2 : ((equipment.countP (fun item : Equipment => item.status == "Out of Service") : ℕ) :
      ℚ) ≤ equipment.length := by
    exact_mod_cast
      List.countP_le_length (fun item : Equipment => item.status == "Out of Service")
  have h3 : (0 : ℚ) ≤ ((equipment.countP serialAbsentOrBlank : ℕ) : ℚ) := by positivity
  have h4 : (0 : ℚ) ≤
      ((equipment.countP (fun item : Equipment => item.status == "Out of Service") : ℕ) :
        ℚ) := by positivity
  have hx : |((equipment.length : ℚ) - (equipment.countP serialAbsentOrBlank : ℕ)
      - (equipment.countP (fun item => item.status == "Out of Service") : ℕ))
        / (equipment.length : ℚ)| ≤ 1 := by
    rw [abs_le]
    constructor
    · rw [le_div_iff₀ hpos]
      linarith
    · rw [div_le_iff₀ hpos]
      linarith
  obtain ⟨q, hq, hb, he, _, _⟩ := scaled_ratio _ hx
  refine ⟨q, ?_, hb, he⟩
  rw [complianceScoreValue_eq, jsDiv_length_ne_nil _ _ h]
  exact hq

theorem readinessPercentValue_near (p : Equipment → Bool) (equipment : List Equipment)
    (h : equipment ≠ []) :
    ∃ q, readinessPercentValue (equipment.filter p) equipment = JSNumber.fin q ∧
      0 ≤ q ∧ q ≤ 100 ∧
      |q - ((equipment.countP p : ℕ) : ℚ) / (equipment.length : ℚ) * 100| ≤ 2 ^ (-45 : ℤ) := by
  have hpos := length_cast_pos equipment h
  have hle : ((equipment.countP p : ℕ) : ℚ) ≤ (equipment.length : ℚ) := by
    exact_mod_cast List.countP_le_length p
  have h0 : (0 : ℚ) ≤ ((equipment.countP p : ℕ) : ℚ) := by positivity
  have hx0 : (0 : ℚ) ≤ ((equipment.countP p : ℕ) : ℚ) / (equipment.length : ℚ) :=
    div_nonneg h0 hpos.le
  have hx : |((equipment.countP p : ℕ) : ℚ) / (equipment.length : ℚ)| ≤ 1 := by
    rw [abs_of_nonneg hx0]
    exact (div_le_one hpos).2 hle
  obtain ⟨q, hq, hb, he, hp, _⟩ := scaled_ratio _ hx
  refine ⟨q, ?_, hp hx0, (abs_le.1 hb).2, he⟩
  rw [readinessPercentValue_eq, jsDiv_length_ne_nil _ _ h]
  exact hq

/-! ## The compliance report -/

/-- Claim C1, as the code has it: for every non-empty record list the
compliance score of `generateComplianceReport` is the value of
`(total - missingSerial - outOfService) / total * 100` in JavaScript (double)
arithmetic, where `total` is the number of records, `outOfService` the number
of records with status `Out of Service`, and `missingSerial` the number of
records whose serial number is absent, empty or made of white space only.
The score is a finite number within `2 ^ -45` of the exact value of the
formula, and the constant `complianceScore` is that number formatted by
`toFixed(1)`. -/
theorem complianceScore_formula (equipment : List Equipment) (h : equipment ≠ []) :
    complianceScoreValue equipment =
        jsMul
          (jsDiv
            ((equipment.length : ℚ) - (equipment.countP serialAbsentOrBlank : ℕ)
              - (equipment.countP (fun item => item.status == "Out of Service") : ℕ))
            (equipment.length : ℚ))
          100 ∧
      ∃ q, complianceScoreValue equipment = JSNumber.fin q ∧
        |q - ((equipment.length : ℚ) - (equipment.countP serialAbsentOrBlank : ℕ)
              - (equipment.countP (fun item => item.status == "Out of Service") : ℕ))
            / (equipment.length : ℚ) * 100| ≤ 2 ^ (-45 : ℤ) ∧
        complianceScore equipment = toFixed1 (JSNumber.fin q) := by
  refine ⟨complianceScoreValue_eq equipment, ?_⟩
  obtain ⟨q, hq, _, he⟩ := complianceScoreValue_near equipment h
  refine ⟨q, hq, he, ?_⟩
  unfold complianceScore
  rw [hq]

/-- Witness for claim C1: the formula at the two-record scenario. -/
theorem complianceScore_formula_witness :
    scenarioRecords ≠ [] ∧
      complianceScoreValue scenarioRecords =
        jsMul
          (jsDiv
            ((scenarioRecords.length : ℚ) - (scenarioRecords.countP serialAbsentOrBlank : ℕ)
              - (scenarioRecords.countP (fun item => item.status == "Out of Service") : ℕ))
            (scenarioRecords.length : ℚ))
          100 :=
  ⟨by decide, (complianceScore_formula scenarioRecords (by decide)).1⟩

/-- Claim C1 as stated fails: one available record whose serial number is a
single space is counted as missing its serial number by the code (score `0`),
but not by the reading "empty or absent, and no others" (score `100`). -/
theorem complianceScore_blank_serial_counterexample :
    blankSerialRecords ≠ [] ∧
      complianceScoreValue blankSerialRecords = JSNumber.fin 0 ∧
      specComplianceScoreValue blankSerialRecords = JSNumber.fin 100 ∧
      complianceScoreValue blankSerialRecords ≠ specComplianceScoreValue blankSerialRecords := by
  have h1 : complianceScoreValue blankSerialRecords = JSNumber.fin 0 := by
    have hm : (missingSerialNumbers blankSerialRecords).length = 1 := by decide
    have ho : (outOfService blankSerialRecords).length = 0 := by decide
    have hl : blankSerialRecords.length = 1 := rfl
    unfold complianceScoreValue
    rw [hm, ho, hl]
    have := jsMul_jsDiv_dyadic (((1 : ℕ) : ℚ) - ((1 : ℕ) : ℚ) - ((0 : ℕ) : ℚ)) ((1 : ℕ) : ℚ)
      (by norm_num) 0 0 0 (by norm_num) (by norm_num) (by norm_num) (by norm_num)
      (by norm_num) (by norm_num)
    simpa using this
  have h2 : specComplianceScoreValue blankSerialRecords = JSNumber.fin 100 := by
    have hm : blankSerialRecords.countP specMissingSerial = 0 := by decide
    have ho : blankSerialRecords.countP (fun item => item.status == "Out of Service") = 0 := by
      decide
    have hl : blankSerialRecords.length = 1 := rfl
    unfold specComplianceScoreValue
    rw [hm, ho, hl]
    have := jsMul_jsDiv_dyadic (((1 : ℕ) : ℚ) - ((0 : ℕ) : ℚ) - ((0 : ℕ) : ℚ)) ((1 : ℕ) : ℚ)
      (by norm_num) 1 0 100 (by norm_num) (by norm_num) (by norm_num) (by norm_num)
      (by norm_num) (by norm_num)
    simpa using this
  refine ⟨by decide, h1, h2, ?_⟩
  rw [h1, h2]
  intro h
  injection h with h
  norm_num at h

theorem complianceScoreValue_scenario :
    complianceScoreValue scenarioRecords = JSNumber.fin (-50) := by
  have hm : (missingSerialNumbers scenarioRecords).length = 2 := by decide
  have ho : (outOfService scenarioRecords).length = 1 := by decide
  have hl : scenarioRecords.length = 2 := rfl
  unfold complianceScoreValue
  rw [hm, ho, hl]
  have := jsMul_jsDiv_dyadic (((2 : ℕ) : ℚ) - ((2 : ℕ) : ℚ) - ((1 : ℕ) : ℚ)) ((2 : ℕ) : ℚ)
    (by norm_num) (-1) (-1) (-50) (by norm_num) (by norm_num) (by norm_num) (by norm_num)
    (by norm_num) (by norm_num)
  simpa using this

/-- Claim C2, as the code has it: in the two-record scenario both records
miss their serial number (one has no `serialNumber`, the other the empty
one) and one is out of service, so the score is `(2-2-1)/2*100 = -50`,
formatted as `-50.0`. -/
theorem complianceScore_scenario :
    (missingSerialNumbers scenarioRecords).length = 2 ∧
      (outOfService scenarioRecords).length = 1 ∧
      complianceScoreValue scenarioRecords = JSNumber.fin ((2 - 2 - 1) / 2 * 100) ∧
      complianceScore scenarioRecords = "-50.0" := by
  have hm : (missingSerialNumbers scenarioRecords).length = 2 := by decide
  have ho : (outOfService scenarioRecords).length = 1 := by decide
  have hv : complianceScoreValue scenarioRecords = JSNumber.fin ((2 - 2 - 1) / 2 * 100) := by
    rw [complianceScoreValue_scenario]
    norm_num
  refine ⟨hm, ho, hv, ?_⟩
  unfold complianceScore
  rw [hv]
  norm_num [toFixed1, toFixed1Abs]
  decide

/-- Claim C2 as stated fails: the score of the two-record scenario is not
`(2-1-1)/2*100 = 0`, and it is not displayed as `0.0`. -/
theorem complianceScore_scenario_counterexample :
    complianceScoreValue scenarioRecords ≠ JSNumber.fin ((2 - 1 - 1) / 2 * 100) ∧
      complianceScore scenarioRecords ≠ "0.0" := by
  have hv := complianceScoreValue_scenario
  constructor
  · rw [hv]
    intro h
    injection h with h
    norm_num at h
  · unfold complianceScore
    rw [hv]
    norm_num [toFixed1, toFixed1Abs]
    decide

/-- Claim C7: for the empty record list the score computation of
`generateComplianceReport` completes: `0 / 0 * 100` is `NaN`, and
`toFixed(1)` formats it as the text `NaN`. -/
theorem complianceScore_empty :
    complianceScoreValue [] = JSNumber.nan ∧ complianceScore [] = "NaN" := by
  have hv : complianceScoreValue [] = JSNumber.nan := by
    simp [complianceScoreValue, missingSerialNumbers, outOfService, jsDiv, jsMul]
  refine ⟨hv, ?_⟩
  unfold complianceScore
  rw [hv]
  rfl

/-- Claim C8: for every non-empty record list, each percentage of the
Readiness Summary (Available, Maintenance, Out of Service) is the value of
`count / total * 100` in JavaScript (double) arithmetic, formatted by
`toFixed(1)`, where `count` is the number of records with that status and
`total` the number of records; the percentage is a finite number between `0`
and `100`, within `2 ^ -45` of the exact value of the formula. -/
theorem readinessPercent_formula (equipment : List Equipment) (h : equipment ≠ []) :
    ∀ bucket status,
      (bucket, status) ∈
          [(available equipment, "Available"), (maintenance equipment, "Maintenance"),
            (outOfService equipment, "Out of Service")] →
        bucket = equipment.filter (fun item => item.status == status) ∧
        readinessPercentValue bucket equipment =
          jsMul
            (jsDiv ((equipment.countP (fun item => item.status == status) : ℕ) : ℚ)
              (equipment.length : ℚ))
            100 ∧
        ∃ q, readinessPercentValue bucket equipment = JSNumber.fin q ∧
          0 ≤ q ∧ q ≤ 100 ∧
          |q - ((equipment.countP (fun item => item.status == status) : ℕ) : ℚ)
              / (equipment.length : ℚ) * 100| ≤ 2 ^ (-45 : ℤ) ∧
          readinessPercent bucket equipment = toFixed1 (JSNumber.fin q) := by
  intro bucket status hmem
  have hb : bucket = equipment.filter (fun item => item.status == status) := by
    simp only [List.mem_cons, Prod.mk.injEq, List.mem_singleton, List.not_mem_nil,
      or_false] at hmem
    rcases hmem with ⟨h1, h2⟩ | ⟨h1, h2⟩ | ⟨h1, h2⟩ <;> subst h1 <;> subst h2 <;> rfl
  obtain ⟨q, hq, h0, h100, he⟩ :=
    readinessPercentValue_near (fun item => item.status == status) equipment h
  refine ⟨hb, ?_, q, ?_, h0, h100, he, ?_⟩
  · rw [hb]
    exact readinessPercentValue_eq _ equipment
  · rw [hb]
    exact hq
  · unfold readinessPercent
    rw [hb, hq]

/-- Witness for claim C8: the percentages of the two-record scenario. -/
theorem readinessPercent_formula_witness :
    scenarioRecords ≠ [] ∧
      readinessPercentValue (available scenarioRecords) scenarioRecords =
        jsMul
          (jsDiv
            ((scenarioRecords.countP (fun item => item.status == "Available") : ℕ) : ℚ)
            (scenarioRecords.length : ℚ))
          100 :=
  ⟨by decide,
    (readinessPercent_formula scenarioRecords (by decide) (available scenarioRecords)
      "Available" (by simp)).2.1⟩

/-! ## The status report -/

theorem incrementCount_fourCounts (a b c d : ℕ) :
    incrementCount (fourCounts a b c d) "Available" = fourCounts (a + 1) b c d ∧
    incrementCount (fourCounts a b c d) "In Use" = fourCounts a (b + 1) c d ∧
    incrementCount (fourCounts a b c d) "Maintenance" = fourCounts a b (c + 1) d ∧
    incrementCount (fourCounts a b c d) "Out of Service" = fourCounts a b c (d + 1) := by
  refine ⟨?_, ?_, ?_, ?_⟩ <;>
    simp [incrementCount, fourCounts, jsSucc]

theorem foldl_incrementCount_fourCounts (equipment : List Equipment)
    (h : ∀ item ∈ equipment, item.status ∈ statusEnumeration) (a b c d : ℕ) :
    equipment.foldl (fun counts item => incrementCount counts item.status) (fourCounts a b c d) =
      fourCounts (a + equipment.countP (fun item => item.status == "Available"))
        (b + equipment.countP (fun item => item.status == "In Use"))
        (c + equipment.countP (fun item => item.status == "Maintenance"))
        (d + equipment.countP (fun item => item.status == "Out of Service")) := by
  induction equipment generalizing a b c d with
  | nil => simp
  | cons item rest ih =>
    have hrest : ∀ x ∈ rest, x.status ∈ statusEnumeration :=
      fun x hx => h x (List.mem_cons_of_mem _ hx)
    have hitem : item.status ∈ statusEnumeration := h item (List.mem_cons_self _ _)
    obtain ⟨h1, h2, h3, h4⟩ := incrementCount_fourCounts a b c d
    simp only [statusEnumeration, List.mem_cons, List.mem_singleton, List.not_mem_nil,
      or_false] at hitem
    rw [List.foldl_cons]
    rcases hitem with hs | hs | hs | hs
    · rw [hs, h1, ih hrest]
      simp [List.countP_cons, hs]
      congr 1
      omega
    · rw [hs, h2, ih hrest]
      simp [List.countP_cons, hs]
      congr 1
      omega
    · rw [hs, h3, ih hrest]
      simp [List.countP_cons, hs]
      congr 1
      omega
    · rw [hs, h4, ih hrest]
      simp [List.countP_cons, hs]
      congr 1
      omega

theorem statusCounts_eq_fourCounts (equipment : List Equipment)
    (h : ∀ item ∈ equipment, item.status ∈ statusEnumeration) :
    statusCounts equipment =
      fourCounts (equipment.countP (fun item => item.status == "Available"))
        (equipment.countP (fun item => item.status == "In Use"))
        (equipment.countP (fun item => item.status == "Maintenance"))
        (equipment.countP (fun item => item.status == "Out of Service")) := by
  have h0 : initialStatusCounts = fourCounts 0 0 0 0 := by
    simp [initialStatusCounts, fourCounts]
  unfold statusCounts
  rw [h0, foldl_incrementCount_fourCounts equipment h]
  simp

/-- Claim C3: for every record list whose statuses all lie in the
enumeration, `statusCounts` of `generateStatusReport` has exactly the four
status keys and maps each of them to the number of records with that status
(so a status that no record has maps to `0`); the empty list gives four zero
counts, and the two-record scenario gives Available 1, In Use 0,
Maintenance 0, Out of Service 1. -/
theorem statusCounts_spec (equipment : List Equipment)
    (h : ∀ item ∈ equipment, item.status ∈ statusEnumeration) :
    (statusCounts equipment).map Prod.fst = statusEnumeration ∧
      (∀ status ∈ statusEnumeration,
        (statusCounts equipment).lookup status =
          some (JSNumber.fin (equipment.countP (fun item => item.status == status) : ℕ))) ∧
      (∀ status ∈ statusEnumeration,
        (∀ item ∈ equipment, item.status ≠ status) →
          (statusCounts equipment).lookup status = some (JSNumber.fin 0)) ∧
      statusCounts [] =
        [("Available", JSNumber.fin 0), ("In Use", JSNumber.fin 0),
          ("Maintenance", JSNumber.fin 0), ("Out of Service", JSNumber.fin 0)] ∧
      statusCounts scenarioRecords =
        [("Available", JSNumber.fin 1), ("In Use", JSNumber.fin 0),
          ("Maintenance", JSNumber.fin 0), ("Out of Service", JSNumber.fin 1)] := by
  have hcount : ∀ status ∈ statusEnumeration,
      (statusCounts equipment).lookup status =
        some (JSNumber.fin (equipment.countP (fun item => item.status == status) : ℕ)) := by
    intro status hst
    rw [statusCounts_eq_fourCounts equipment h]
    simp only [statusEnumeration, List.mem_cons, List.mem_singleton, List.not_mem_nil,
      or_false] at hst
    rcases hst with hs | hs | hs | hs <;> subst hs <;> simp [fourCounts, List.lookup]
  refine ⟨?_, hcount, ?_, rfl, ?_⟩
  · rw [statusCounts_eq_fourCounts equipment h]
    rfl
  · intro status hst hnone
    rw [hcount status hst]
    have h0 : equipment.countP (fun item => item.status == status) = 0 := by
      rw [List.countP_eq_zero]
      intro item hitem
      simpa using hnone item hitem
    rw [h0]
    simp
  · have hsc : ∀ item ∈ scenarioRecords, item.status ∈ statusEnumeration := by decide
    rw [statusCounts_eq_fourCounts scenarioRecords hsc]
    have e1 : scenarioRecords.countP (fun item => item.status == "Available") = 1 := by decide
    have e2 : scenarioRecords.countP (fun item => item.status == "In Use") = 0 := by decide
    have e3 : scenarioRecords.countP (fun item => item.status == "Maintenance") = 0 := by decide
    have e4 : scenarioRecords.countP (fun item => item.status == "Out of Service") = 1 := by
      decide
    rw [e1, e2, e3, e4]
    simp [fourCounts]

/-- Witness for claim C3: the statuses of the two-record scenario are
enumerated ones, and its `Out of Service` count is the number of such
records. -/
theorem statusCounts_spec_witness :
    (∀ item ∈ scenarioRecords, item.status ∈ statusEnumeration) ∧
      (statusCounts scenarioRecords).map Prod.fst = statusEnumeration :=
  ⟨by decide, (statusCounts_spec scenarioRecords (by decide)).1⟩

/-! ## The search filter -/

theorem asciiToLowerCase_eq_empty (s : String) : asciiToLowerCase s = "" ↔ s = "" := by
  unfold asciiToLowerCase
  constructor
  · intro h
    have h1 : s.data.map Char.toLower = [] := congrArg String.data h
    have h2 : s.data = [] := List.map_eq_nil_iff.1 h1
    exact String.ext h2
  · intro h
    rw [h]
    rfl

theorem filter_if_supplied (c : String) (p : Equipment → Bool) (l : List Equipment) :
    (if (c != "") = true then l.filter p else l) = l.filter (fun e => c == "" || p e) := by
  by_cases h : c = ""
  · subst h
    simp
  · have hc : (c == "") = false := by simpa using h
    simp [h, hc]

theorem filterEquipment_eq_filter (toLowerCase : String → String)
    (searchInput statusFilter typeFilter : String) (equipment : List Equipment) :
    filterEquipment toLowerCase searchInput statusFilter typeFilter equipment =
      equipment.filter (fun e =>
        (toLowerCase searchInput == "" ||
            matchesSearch toLowerCase (toLowerCase searchInput) e) &&
          ((statusFilter == "" || e.status == statusFilter) &&
            (typeFilter == "" || e.type == typeFilter))) := by
  unfold filterEquipment
  dsimp only
  rw [filter_if_supplied, filter_if_supplied, filter_if_supplied, List.filter_filter,
    List.filter_filter]
  congr 1
  funext e
  cases (toLowerCase searchInput == "" ||
      matchesSearch toLowerCase (toLowerCase searchInput) e) <;>
    cases (statusFilter == "" || e.status == statusFilter) <;>
    cases (typeFilter == "" || e.type == typeFilter) <;> rfl

/-- Claim C4: for every record list and every choice of text query, status
and type (the empty string meaning "not supplied"), `filterEquipment` returns
exactly the records that satisfy every supplied criterion, in their input
order; with no criterion the input is returned unchanged, and with only the
status `Available` the result is exactly the records with that status. -/
theorem filterEquipment_spec (toLowerCase : String → String)
    (hlower : ∀ s, toLowerCase s = "" ↔ s = "")
    (textQuery status type : String) (equipment : List Equipment) :
    filterEquipment toLowerCase textQuery status type equipment =
        equipment.filter (fun e =>
          (textQuery == "" || matchesSearch toLowerCase (toLowerCase textQuery) e) &&
            ((status == "" || e.status == status) && (type == "" || e.type == type))) ∧
      (filterEquipment toLowerCase textQuery status type equipment).Sublist equipment ∧
      filterEquipment toLowerCase "" "" "" equipment = equipment ∧
      filterEquipment toLowerCase "" "Available" "" equipment =
        equipment.filter (fun e => e.status == "Available") := by
  have hempty : toLowerCase "" = "" := (hlower "").2 rfl
  refine ⟨?_, ?_, ?_, ?_⟩
  · rw [filterEquipment_eq_filter]
    congr 1
    funext e
    by_cases hq : textQuery = ""
    · simp [hq, hempty]
    · have hq2 : ¬ toLowerCase textQuery = "" := fun h => hq ((hlower textQuery).1 h)
      have e1 : (textQuery == "") = false := by simpa using hq
      have e2 : (toLowerCase textQuery == "") = false := by simpa using hq2
      rw [e1, e2]
  · rw [filterEquipment_eq_filter]
    exact List.filter_sublist _
  · rw [filterEquipment_eq_filter]
    simp [hempty]
  · rw [filterEquipment_eq_filter]
    simp [hempty]

/-- Witness for claim C4: ASCII lower-casing maps only the empty string to
the empty string, and filtering the scenario by status `Available` with it
keeps exactly the available records. -/
theorem filterEquipment_spec_witness :
    (∀ s, asciiToLowerCase s = "" ↔ s = "") ∧
      filterEquipment asciiToLowerCase "" "Available" "" scenarioRecords =
        scenarioRecords.filter (fun e => e.status == "Available") :=
  ⟨asciiToLowerCase_eq_empty,
    (filterEquipment_spec asciiToLowerCase asciiToLowerCase_eq_empty "" "" ""
      scenarioRecords).2.2.2⟩

theorem matchesSearch_iff (toLowerCase : String → String)
    (hlower : ∀ s, toLowerCase s = "" ↔ s = "") (textQuery : String)
    (hq : textQuery ≠ "") (e : Equipment) :
    matchesSearch toLowerCase (toLowerCase textQuery) e = true ↔
      ((toLowerCase textQuery).data <:+: (toLowerCase e.name).data ∨
        (toLowerCase textQuery).data <:+: (toLowerCase e.type).data ∨
        (toLowerCase textQuery).data <:+: (toLowerCase e.location).data ∨
        ∃ s, e.serialNumber = some s ∧
          (toLowerCase textQuery).data <:+: (toLowerCase s).data) := by
  have hq2 : (toLowerCase textQuery).data ≠ [] := by
    intro h
    exact hq ((hlower textQuery).1 (String.ext h))
  unfold matchesSearch includes
  cases hs : e.serialNumber with
  | none => simp [or_assoc]
  | some s =>
    by_cases hs0 : s = ""
    · subst hs0
      have h0 : (toLowerCase "").data = [] := by
        rw [(hlower "").2 rfl]
      have hno : ¬ (toLowerCase textQuery).data <:+: (toLowerCase "").data := by
        rw [h0]
        intro h
        exact hq2 (List.infix_nil.1 h)
      simp [hno, or_assoc]
    · simp [hs0, or_assoc]

theorem filterEquipment_text_mem (toLowerCase : String → String)
    (hlower : ∀ s, toLowerCase s = "" ↔ s = "") (textQuery : String)
    (hq : textQuery ≠ "") (equipment : List Equipment) (e : Equipment) :
    e ∈ filterEquipment toLowerCase textQuery "" "" equipment ↔
      e ∈ equipment ∧ matchesSearch toLowerCase (toLowerCase textQuery) e = true := by
  have hq2 : ¬ toLowerCase textQuery = "" := fun h => hq ((hlower textQuery).1 h)
  have e2 : (toLowerCase textQuery == "") = false := by simpa using hq2
  rw [filterEquipment_eq_filter, List.mem_filter, e2]
  simp

/-- Claim C5: for every record and every non-empty text query, the text
filter of `filterEquipment` keeps the record if and only if the lower-cased
query is a substring of the lower-cased name, type, location or (present)
serial number; two queries with the same lower-casing select the same
records; and a record whose serial number is absent or empty is kept only
through its name, type or location. -/
theorem searchFilter_spec (toLowerCase : String → String)
    (hlower : ∀ s, toLowerCase s = "" ↔ s = "") (textQuery : String)
    (hq : textQuery ≠ "") :
    (∀ (equipment : List Equipment) (e : Equipment),
        e ∈ filterEquipment toLowerCase textQuery "" "" equipment ↔
          e ∈ equipment ∧
            ((toLowerCase textQuery).data <:+: (toLowerCase e.name).data ∨
              (toLowerCase textQuery).data <:+: (toLowerCase e.type).data ∨
              (toLowerCase textQuery).data <:+: (toLowerCase e.location).data ∨
              ∃ s, e.serialNumber = some s ∧
                (toLowerCase textQuery).data <:+: (toLowerCase s).data)) ∧
      (∀ (otherQuery status type : String) (equipment : List Equipment),
        toLowerCase otherQuery = toLowerCase textQuery →
          filterEquipment toLowerCase otherQuery status type equipment =
            filterEquipment toLowerCase textQuery status type equipment) ∧
      (∀ (equipment : List Equipment) (e : Equipment),
        e.serialNumber = none ∨ e.serialNumber = some "" →
          (e ∈ filterEquipment toLowerCase textQuery "" "" equipment ↔
            e ∈ equipment ∧
              ((toLowerCase textQuery).data <:+: (toLowerCase e.name).data ∨
                (toLowerCase textQuery).data <:+: (toLowerCase e.type).data ∨
                (toLowerCase textQuery).data <:+: (toLowerCase e.location).data))) := by
  have hq2 : (toLowerCase textQuery).data ≠ [] := by
    intro h
    exact hq ((hlower textQuery).1 (String.ext h))
  refine ⟨?_, ?_, ?_⟩
  · intro equipment e
    rw [filterEquipment_text_mem toLowerCase hlower textQuery hq,
      matchesSearch_iff toLowerCase hlower textQuery hq]
  · intro otherQuery status type equipment hsame
    rw [filterEquipment_eq_filter, filterEquipment_eq_filter, hsame]
  · intro equipment e hserial
    rw [filterEquipment_text_mem toLowerCase hlower textQuery hq,
      matchesSearch_iff toLowerCase hlower textQuery hq]
    have hnot : ¬ ∃ s, e.serialNumber = some s ∧
        (toLowerCase textQuery).data <:+: (toLowerCase s).data := by
      rintro ⟨s, hs, hin⟩
      rcases hserial with h | h
      · rw [h] at hs
        exact Option.noConfusion hs
      · rw [h] at hs
        have hs2 : s = "" := (Option.some.inj hs).symm
        subst hs2
        have h0 : (toLowerCase "").data = [] := by
          rw [(hlower "").2 rfl]
        rw [h0] at hin
        exact hq2 (List.infix_nil.1 hin)
    simp [hnot]

/-- Witness for claim C5: with ASCII lower-casing, the query `LADDER` keeps
exactly the scenario record named `Ladder 1`, as the query `ladder` does. -/
theorem searchFilter_spec_witness :
    (∀ s, asciiToLowerCase s = "" ↔ s = "") ∧ "LADDER" ≠ "" ∧
      filterEquipment asciiToLowerCase "ladder" "" "" scenarioRecords =
        filterEquipment asciiToLowerCase "LADDER" "" "" scenarioRecords ∧
      filterEquipment asciiToLowerCase "LADDER" "" "" scenarioRecords =
        [{ name := "Ladder 1", type := "Ladder", location := "Station 1",
           status := "Available" }] :=
  ⟨asciiToLowerCase_eq_empty, by decide,
    (searchFilter_spec asciiToLowerCase asciiToLowerCase_eq_empty "LADDER" (by decide)).2.1
      "ladder" "" "" scenarioRecords (by decide),
    by decide⟩

/-! ## The grouped reports -/

theorem unitsLe_total (a b : List Nat) : unitsLe a b = true ∨ unitsLe b a = true := by
  induction a generalizing b with
  | nil => exact Or.inl (by simp [unitsLe])
  | cons x xs ih =>
    cases b with
    | nil => exact Or.inr (by simp [unitsLe])
    | cons y ys =>
      simp only [unitsLe, Bool.or_eq_true, decide_eq_true_eq, Bool.and_eq_true, beq_iff_eq]
      rcases Nat.lt_trichotomy x y with h | h | h
      · exact Or.inl (Or.inl h)
      · rcases ih ys with h2 | h2
        · exact Or.inl (Or.inr ⟨h, h2⟩)
        · exact Or.inr (Or.inr ⟨h.symm, h2⟩)
      · exact Or.inr (Or.inl h)

theorem unitsLe_trans (a b c : List Nat) (hab : unitsLe a b = true) (hbc : unitsLe b c = true) :
    unitsLe a c = true := by
  induction a generalizing b c with
  | nil => simp [unitsLe]
  | cons x xs ih =>
    cases b with
    | nil => simp [unitsLe] at hab
    | cons y ys =>
      cases c with
      | nil => simp [unitsLe] at hbc
      | cons z zs =>
        simp only [unitsLe, Bool.or_eq_true, decide_eq_true_eq, Bool.and_eq_true,
          beq_iff_eq] at hab hbc ⊢
        rcases hab with h1 | ⟨h1, h1'⟩
        · rcases hbc with h2 | ⟨h2, _⟩
          · exact Or.inl (Nat.lt_trans h1 h2)
          · exact Or.inl (h2 ▸ h1)
        · rcases hbc with h2 | ⟨h2, h2'⟩
          · exact Or.inl (h1 ▸ h2)
          · exact Or.inr ⟨h1.trans h2, ih ys zs h1' h2'⟩

theorem jsSort_sorted (xs : List String) :
    (jsSort xs).Sorted (fun a b => jsStringLe a b = true) := by
  haveI : IsTotal String (fun a b => jsStringLe a b = true) :=
    ⟨fun a b => unitsLe_total (utf16Units a) (utf16Units b)⟩
  haveI : IsTrans String (fun a b => jsStringLe a b = true) :=
    ⟨fun a b c hab hbc => unitsLe_trans (utf16Units a) (utf16Units b) (utf16Units c) hab hbc⟩
  exact List.sorted_insertionSort _ xs

theorem objectKeys_perm (groups : GroupObject) :
    (objectKeys groups).Perm (groups.map Prod.fst) := by
  unfold objectKeys
  dsimp only
  refine List.Perm.trans ?_ (List.filter_append_perm (fun k => (arrayIndex? k).isSome)
    (groups.map Prod.fst))
  exact List.Perm.append (List.perm_insertionSort _ _) (List.Perm.refl _)

theorem jsSort_objectKeys_perm (groups : GroupObject) :
    (jsSort (objectKeys groups)).Perm (groups.map Prod.fst) :=
  (List.perm_insertionSort _ _).trans (objectKeys_perm groups)

theorem addToGroup_own (groups : GroupObject) (key : String) (item : Equipment)
    (h : key ∈ groups.map Prod.fst) :
    ∃ groups', addToGroup groups key item = Except.ok groups' ∧
      groups'.map Prod.fst = groups.map Prod.fst := by
  have hany : groups.any (fun p => p.1 == key) = true := by
    rw [List.any_eq_true]
    obtain ⟨p, hp, hk⟩ := List.mem_map.1 h
    exact ⟨p, hp, by simp [hk]⟩
  refine ⟨groups.map (fun p => if p.1 == key then (p.1, p.2 ++ [item]) else p), ?_, ?_⟩
  · simp only [addToGroup, hany, if_true]
  rw [List.map_map]
  apply List.map_congr_left
  intro p _
  by_cases hp : p.1 = key <;> simp [hp]

theorem addToGroup_new (groups : GroupObject) (key : String) (item : Equipment)
    (h : key ∉ groups.map Prod.fst) (hproto : key ∉ objectPrototypeKeys) :
    addToGroup groups key item = Except.ok (groups ++ [(key, [item])]) := by
  have hany : groups.any (fun p => p.1 == key) = false := by
    rw [List.any_eq_false]
    intro p hp hk
    apply h
    have : p.1 = key := by simpa using hk
    exact List.mem_map.2 ⟨p, hp, this⟩
  have hc : objectPrototypeKeys.contains key = false := by
    simpa using hproto
  simp only [addToGroup, hany, hc]
  rfl

theorem addToGroup_inherited (groups : GroupObject) (key : String) (item : Equipment)
    (h : key ∉ groups.map Prod.fst) (hproto : key ∈ objectPrototypeKeys) :
    addToGroup groups key item = Except.error JSError.typeError := by
  have hany : groups.any (fun p => p.1 == key) = false := by
    rw [List.any_eq_false]
    intro p hp hk
    apply h
    have : p.1 = key := by simpa using hk
    exact List.mem_map.2 ⟨p, hp, this⟩
  have hc : objectPrototypeKeys.contains key = true := by
    simpa using hproto
  simp only [addToGroup, hany, hc]
  rfl

theorem foldlM_addToGroup_keys (key : Equipment → String) (equipment : List Equipment)
    (hproto : ∀ item ∈ equipment, key item ∉ objectPrototypeKeys) (groups : GroupObject)
    (hnodup : (groups.map Prod.fst).Nodup) :
    ∃ groups',
      equipment.foldlM (fun g item => addToGroup g (key item) item) groups = Except.ok groups' ∧
      (groups'.map Prod.fst).Nodup ∧
      ∀ k, k ∈ groups'.map Prod.fst ↔
        k ∈ groups.map Prod.fst ∨ ∃ item ∈ equipment, key item = k := by
  induction equipment generalizing groups with
  | nil =>
    exact ⟨groups, rfl, hnodup, by simp⟩
  | cons item rest ih =>
    have hrest : ∀ x ∈ rest, key x ∉ objectPrototypeKeys :=
      fun x hx => hproto x (List.mem_cons_of_mem _ hx)
    have hitem : key item ∉ objectPrototypeKeys := hproto item (List.mem_cons_self _ _)
    by_cases hmem : key item ∈ groups.map Prod.fst
    · obtain ⟨g1, hg1, hkeys⟩ := addToGroup_own groups (key item) item hmem
      obtain ⟨g2, hg2, hnd, hiff⟩ := ih hrest g1 (by rw [hkeys]; exact hnodup)
      refine ⟨g2, ?_, hnd, ?_⟩
      · rw [List.foldlM_cons, hg1]
        exact hg2
      · intro k
        rw [hiff k, hkeys]
        constructor
        · rintro (h | ⟨x, hx, hk⟩)
          · exact Or.inl h
          · exact Or.inr ⟨x, List.mem_cons_of_mem _ hx, hk⟩
        · rintro (h | ⟨x, hx, hk⟩)
          · exact Or.inl h
          · rcases List.mem_cons.1 hx with hx | hx
            · subst hx
              exact Or.inl (hk ▸ hmem)
            · exact Or.inr ⟨x, hx, hk⟩
    · have hg1 := addToGroup_new groups (key item) item hmem hitem
      have hkeys : (groups ++ [(key item, [item])]).map Prod.fst =
          groups.map Prod.fst ++ [key item] := by simp
      have hnd1 : ((groups ++ [(key item, [item])]).map Prod.fst).Nodup := by
        rw [hkeys]
        refine List.Nodup.append hnodup (List.nodup_singleton _) ?_
        intro k hk1 hk2
        rw [List.mem_singleton] at hk2
        exact hmem (hk2 ▸ hk1)
      obtain ⟨g2, hg2, hnd, hiff⟩ := ih hrest _ hnd1
      refine ⟨g2, ?_, hnd, ?_⟩
      · rw [List.foldlM_cons, hg1]
        exact hg2
      · intro k
        rw [hiff k, hkeys, List.mem_append, List.mem_singleton]
        constructor
        · rintro ((h | h) | ⟨x, hx, hk⟩)
          · exact Or.inl h
          · exact Or.inr ⟨item, List.mem_cons_self _ _, h.symm⟩
          · exact Or.inr ⟨x, List.mem_cons_of_mem _ hx, hk⟩
        · rintro (h | ⟨x, hx, hk⟩)
          · exact Or.inl (Or.inl h)
          · rcases List.mem_cons.1 hx with hx | hx
            · subst hx
              exact Or.inl (Or.inr hk.symm)
            · exact Or.inr ⟨x, hx, hk⟩

theorem groupBy_sorted_keys (key : Equipment → String) (equipment : List Equipment)
    (hproto : ∀ item ∈ equipment, key item ∉ objectPrototypeKeys) :
    ∃ keys,
      (groupBy key equipment).map (fun groups => jsSort (objectKeys groups)) = Except.ok keys ∧
      keys.Nodup ∧
      (∀ k, k ∈ keys ↔ ∃ item ∈ equipment, key item = k) ∧
      keys.Sorted (fun a b => jsStringLe a b = true) := by
  obtain ⟨groups, hg, hnd, hiff⟩ :=
    foldlM_addToGroup_keys key equipment hproto [] (by simp)
  have hperm := jsSort_objectKeys_perm groups
  refine ⟨jsSort (objectKeys groups), ?_, ?_, ?_, jsSort_sorted _⟩
  · unfold groupBy
    rw [hg]
    rfl
  · exact hperm.nodup_iff.2 hnd
  · intro k
    rw [hperm.mem_iff, hiff k]
    simp

/-- The keys of the grouped reports away from the inherited property names:
when no record has a location (resp. type) that is a property name of
`Object.prototype`, the keys iterated by `generateLocationReport` (resp.
`generateTypeReport`) are exactly the distinct locations (resp. types) of the
records, each once, in ascending order of their UTF-16 code units. -/
theorem reportKeys_sorted_distinct (equipment : List Equipment) :
    ((∀ item ∈ equipment, item.location ∉ objectPrototypeKeys) →
      ∃ keys, locationReportKeys equipment = Except.ok keys ∧ keys.Nodup ∧
        (∀ k, k ∈ keys ↔ ∃ item ∈ equipment, item.location = k) ∧
        keys.Sorted (fun a b => jsStringLe a b = true)) ∧
    ((∀ item ∈ equipment, item.type ∉ objectPrototypeKeys) →
      ∃ keys, typeReportKeys equipment = Except.ok keys ∧ keys.Nodup ∧
        (∀ k, k ∈ keys ↔ ∃ item ∈ equipment, item.type = k) ∧
        keys.Sorted (fun a b => jsStringLe a b = true)) :=
  ⟨fun h => groupBy_sorted_keys (fun item => item.location) equipment h,
    fun h => groupBy_sorted_keys (fun item => item.type) equipment h⟩

/-- The keys iterated for four records at the locations `Station 2`, `10`,
`Station 2` and `Depot`. -/
theorem locationReportKeys_stationRecords :
    locationReportKeys stationRecords = Except.ok ["10", "Depot", "Station 2"] :=
  rfl

/-- Claim C6 at its failing input: a record whose location (resp. type) is
`constructor` makes the grouping loop of `generateLocationReport` (resp.
`generateTypeReport`) throw a `TypeError`, so no key is iterated. -/
theorem reportKeys_constructor_throws :
    locationReportKeys constructorLocationRecords = Except.error JSError.typeError ∧
      typeReportKeys constructorTypeRecords = Except.error JSError.typeError :=
  ⟨rfl, rfl⟩

/-! ## The record store -/

theorem lookup_upsertRecord_self (key : Nat) (value : Equipment)
    (records : List (Nat × Equipment)) :
    (upsertRecord key value records).lookup key = some value := by
  induction records with
  | nil => simp [upsertRecord, List.lookup]
  | cons p rest ih =>
    obtain ⟨k, v⟩ := p
    unfold upsertRecord
    by_cases h1 : key < k
    · simp [h1, List.lookup]
    · by_cases h2 : key = k
      · simp [h2, List.lookup]
      · have h3 : (key == k) = false := by simpa using h2
        simp only [h1, h2, if_false, List.lookup, h3]
        exact ih

theorem lookup_upsertRecord_other (key other : Nat) (value : Equipment)
    (records : List (Nat × Equipment)) (h : other ≠ key) :
    (upsertRecord key value records).lookup other = records.lookup other := by
  have hne : (other == key) = false := by simpa using h
  induction records with
  | nil => simp [upsertRecord, List.lookup, hne]
  | cons p rest ih =>
    obtain ⟨k, v⟩ := p
    unfold upsertRecord
    by_cases h1 : key < k
    · simp only [h1, if_true]
      rw [List.lookup_cons, hne]
    · by_cases h2 : key = k
      · subst h2
        simp only [h1, if_false, if_true]
        rw [List.lookup_cons, List.lookup_cons, hne]
      · simp only [h1, h2, if_false]
        rw [List.lookup_cons, List.lookup_cons, ih]

theorem lookup_some_mem (key : Nat) (value : Equipment) (records : List (Nat × Equipment))
    (h : records.lookup key = some value) : (key, value) ∈ records := by
  induction records with
  | nil => simp [List.lookup] at h
  | cons p rest ih =>
    obtain ⟨k, v⟩ := p
    rw [List.lookup_cons] at h
    by_cases hk : key = k
    · subst hk
      simp at h
      subst h
      exact List.mem_cons_self _ _
    · have hne : (key == k) = false := by simpa using hk
      rw [hne] at h
      exact List.mem_cons_of_mem _ (ih h)

theorem any_key_false_of_lt (records : List (Nat × Equipment)) (bound : Nat)
    (h : ∀ p ∈ records, p.1 < bound) :
    records.any (fun p => p.1 == bound) = false := by
  rw [List.any_eq_false]
  intro p hp hk
  have h1 : p.1 = bound := by simpa using hk
  have h2 := h p hp
  omega

theorem upsertRecord_map_snd (key : Nat) (value : Equipment)
    (records : List (Nat × Equipment))
    (hsorted : (records.map Prod.fst).Pairwise (fun a b => a < b))
    (hid : ∀ p ∈ records, p.2.id = some p.1) (hmem : key ∈ records.map Prod.fst) :
    (upsertRecord key value records).map Prod.snd =
        (records.map Prod.snd).map (fun x => if x.id = some key then value else x) ∧
      (upsertRecord key value records).map Prod.fst = records.map Prod.fst := by
  induction records with
  | nil => simp at hmem
  | cons p rest ih =>
    obtain ⟨k, v⟩ := p
    have hv : v.id = some k := hid (k, v) (List.mem_cons_self _ _)
    have hrest : ∀ q ∈ rest, q.2.id = some q.1 :=
      fun q hq => hid q (List.mem_cons_of_mem _ hq)
    rw [List.map_cons, List.pairwise_cons] at hsorted
    obtain ⟨hlt, hsorted'⟩ := hsorted
    rw [List.map_cons, List.mem_cons] at hmem
    unfold upsertRecord
    by_cases h1 : key < k
    · exfalso
      rcases hmem with h | h
      · simp only at h
        omega
      · have := hlt key h
        omega
    · by_cases h2 : key = k
      · subst h2
        simp only [h1, if_false, if_true, List.map_cons, hv, and_true]
        congr 1
        rw [List.map_map]
        symm
        apply List.map_congr_left
        intro q hq
        have hq1 : q.2.id = some q.1 := hrest q hq
        have hq2 : key < q.1 := hlt q.1 (List.mem_map.2 ⟨q, hq, rfl⟩)
        have hq3 : ¬ q.2.id = some key := by
          rw [hq1]
          intro h
          have := Option.some.inj h
          omega
        simp [hq3]
      · have hmem' : key ∈ rest.map Prod.fst := by
          rcases hmem with h | h
          · exact absurd h h2
          · exact h
        obtain ⟨ih1, ih2⟩ := ih hsorted' hrest hmem'
        have hv2 : ¬ v.id = some key := by
          rw [hv]
          intro h
          exact h2 (Option.some.inj h).symm
        simp only [h1, h2, if_false, List.map_cons, ih1, ih2, hv2, and_self]

/-- Claim C9: for every store state and every input record without an `id`,
if `addEquipment` resolves with an id, then reading that id (as
`editEquipment` does) yields the input record with its name, type, location,
status, serial number and notes unchanged, carrying the returned id and the
two creation timestamps; and `addEquipment` does resolve, with the current
number of the key generator, as long as the generator is not exhausted. -/
theorem addEquipment_then_get (store : ObjectStore) (hwf : store.WF) (equipment : Equipment)
    (hid : equipment.id = none) (now₁ now₂ : String) :
    (∀ id store', addEquipment store equipment now₁ now₂ = (Promise.resolved id, store') →
        editEquipment store' id =
          some { equipment with
                 id := some id, timestamp := some now₁, lastUpdated := some now₂ }) ∧
      (store.currentNumber ≤ maxGeneratedKey →
        ∃ store', addEquipment store equipment now₁ now₂ =
          (Promise.resolved store.currentNumber, store')) := by
  have hany : store.records.any (fun p => p.1 == store.currentNumber) = false :=
    any_key_false_of_lt _ _ hwf.2.2
  by_cases hgen : store.currentNumber ≤ maxGeneratedKey
  · have hgen' : ¬ store.currentNumber > maxGeneratedKey := by omega
    have hadd : addEquipment store equipment now₁ now₂ =
        (Promise.resolved store.currentNumber,
          { records :=
              upsertRecord store.currentNumber
                { equipment with
                  id := some store.currentNumber, timestamp := some now₁,
                  lastUpdated := some now₂ }
                store.records,
            currentNumber := store.currentNumber + 1 }) := by
      simp only [addEquipment, ObjectStore.add, storeRecord, hid, hgen', hany, if_false,
        Bool.and_false, Bool.false_eq_true]
    refine ⟨?_, fun _ => ⟨_, hadd⟩⟩
    intro id store' h
    rw [hadd] at h
    have h1 : store.currentNumber = id := by
      have := congrArg Prod.fst h
      exact Promise.resolved.inj this
    have h2 := congrArg Prod.snd h
    simp only at h2
    subst h1
    rw [← h2]
    exact lookup_upsertRecord_self _ _ _
  · have hgen' : store.currentNumber > maxGeneratedKey := by omega
    have hadd : addEquipment store equipment now₁ now₂ =
        (Promise.rejected StoreError.constraintError, store) := by
      simp only [addEquipment, ObjectStore.add, storeRecord, hid, hgen', if_true]
    refine ⟨?_, fun h => absurd h hgen⟩
    intro id store' h
    rw [hadd] at h
    have := congrArg Prod.fst h
    exact Promise.noConfusion this

/-- Witness for claim C9: adding a form record to the scenario store resolves
with id `3`, and reading id `3` yields that record with its id and
timestamps. -/
theorem addEquipment_then_get_witness :
    scenarioStore.WF ∧ hoseInput.id = none ∧
      editEquipment (addEquipment scenarioStore hoseInput "t5" "t6").2 3 =
        some { hoseInput with id := some 3, timestamp := some "t5", lastUpdated := some "t6" } :=
  ⟨by decide, rfl,
    (addEquipment_then_get scenarioStore (by decide) hoseInput rfl "t5" "t6").1 3
      (addEquipment scenarioStore hoseInput "t5" "t6").2 (by decide)⟩

/-- Claim C10: for every store that holds a record `r` under id `i`,
`updateEquipment(i, { status: "Maintenance" })` resolves and changes only the
status and `lastUpdated` of that record (its id, name, type, location, serial
number, notes and `timestamp` stay as they are); every other record, the
order of the records and the key generator are unchanged. -/
theorem updateEquipment_status_frame (store : ObjectStore) (hwf : store.WF) (i : Nat)
    (r : Equipment) (hr : editEquipment store i = some r) (now : String) :
    ∃ store',
      updateEquipment store i statusMaintenance now = (Promise.resolved i, store') ∧
      editEquipment store' i =
        some { r with status := "Maintenance", lastUpdated := some now } ∧
      (∀ j, j ≠ i → editEquipment store' j = editEquipment store j) ∧
      store'.getAll =
        store.getAll.map (fun x =>
          if x.id = some i then { r with status := "Maintenance", lastUpdated := some now }
          else x) ∧
      store'.currentNumber = store.currentNumber := by
  have hget : store.records.lookup i = some r := hr
  have hmem : (i, r) ∈ store.records := lookup_some_mem i r store.records hget
  have hrid : r.id = some i := hwf.2.1 (i, r) hmem
  have hlt : i < store.currentNumber := hwf.2.2 (i, r) hmem
  have hkeys : i ∈ store.records.map Prod.fst := List.mem_map.2 ⟨(i, r), hmem, rfl⟩
  have hassign : objectAssign r statusMaintenance = { r with status := "Maintenance" } := by
    simp [objectAssign, statusMaintenance]
  have hgen : ¬ min i maxGeneratedKey ≥ store.currentNumber := by
    have : min i maxGeneratedKey ≤ i := Nat.min_le_left _ _
    omega
  have hupd : updateEquipment store i statusMaintenance now =
      (Promise.resolved i,
        { records :=
            upsertRecord i { r with status := "Maintenance", lastUpdated := some now }
              store.records,
          currentNumber := store.currentNumber }) := by
    simp only [updateEquipment, ObjectStore.get, hget, hassign, ObjectStore.put, storeRecord,
      hrid, Bool.false_and, Bool.false_eq_true, if_false, hgen]
  refine ⟨_, hupd, ?_, ?_, ?_, rfl⟩
  · exact lookup_upsertRecord_self _ _ _
  · intro j hj
    exact lookup_upsertRecord_other i j _ store.records hj
  · exact (upsertRecord_map_snd i _ store.records hwf.1 hwf.2.1 hkeys).1

/-- Witness for claim C10: setting record `1` of the scenario store to
`Maintenance` at instant `t9`. -/
theorem updateEquipment_status_frame_witness :
    scenarioStore.WF ∧
      ∃ store',
        updateEquipment scenarioStore 1 statusMaintenance "t9" = (Promise.resolved 1, store') ∧
        editEquipment store' 1 =
          some { id := some 1, name := "Ladder 1", type := "Ladder", location := "Station 1",
                 status := "Maintenance", timestamp := some "t1", lastUpdated := some "t9" } ∧
        (∀ j, j ≠ 1 → editEquipment store' j = editEquipment scenarioStore j) :=
  ⟨by decide,
    (updateEquipment_status_frame scenarioStore (by decide) 1
      { id := some 1, name := "Ladder 1", type := "Ladder", location := "Station 1",
        status := "Available", timestamp := some "t1", lastUpdated := some "t2" }
      (by decide) "t9").imp (fun _ h => ⟨h.1, h.2.1, h.2.2.1⟩)⟩

/-! ## Deleting, validating, updating an absent record -/

theorem lookup_filter_ne (key : Nat) (records : List (Nat × Equipment)) :
    (records.filter (fun p => p.1 != key)).lookup key = none := by
  induction records with
  | nil => rfl
  | cons p rest ih =>
    obtain ⟨k, v⟩ := p
    by_cases hk : k = key
    · subst hk
      simpa [List.filter_cons] using ih
    · have h1 : (k != key) = true := by simpa using hk
      have h2 : (key == k) = false := by
        simpa using fun h : key = k => hk h.symm
      rw [List.filter_cons]
      simp only [h1, if_true]
      rw [List.lookup_cons, h2]
      exact ih

/-- Claim C11: for every store state and every id, `deleteEquipment(id)`
completes (its promise resolves); afterwards a read of that id finds no
record, and no record returned by `getAllEquipment` carries that id. -/
theorem deleteEquipment_then_get (store : ObjectStore) (hwf : store.WF) (id : Nat) :
    (deleteEquipment store id).1 = Promise.resolved () ∧
      editEquipment (deleteEquipment store id).2 id = none ∧
      ∃ all, getAllEquipment (deleteEquipment store id).2 = Promise.resolved all ∧
        ∀ r ∈ all, r.id ≠ some id := by
  refine ⟨rfl, lookup_filter_ne id store.records, _, rfl, ?_⟩
  intro r hr
  simp only [deleteEquipment, ObjectStore.delete, ObjectStore.getAll] at hr
  obtain ⟨p, hp, hpr⟩ := List.mem_map.1 hr
  obtain ⟨hp1, hp2⟩ := List.mem_filter.1 hp
  have hid : p.2.id = some p.1 := hwf.2.1 p hp1
  have hne : p.1 ≠ id := by simpa using hp2
  rw [← hpr, hid]
  intro h
  exact hne (Option.some.inj h)

/-- Witness for claim C11: deleting record `2` of the scenario store. -/
theorem deleteEquipment_then_get_witness :
    scenarioStore.WF ∧ editEquipment scenarioStore 2 ≠ none ∧
      editEquipment (deleteEquipment scenarioStore 2).2 2 = none :=
  ⟨by decide, by decide, (deleteEquipment_then_get scenarioStore (by decide) 2).2.1⟩

theorem upsertRecord_length_new (key : Nat) (value : Equipment)
    (records : List (Nat × Equipment)) (h : ∀ p ∈ records, p.1 ≠ key) :
    (upsertRecord key value records).length = records.length + 1 := by
  induction records with
  | nil => rfl
  | cons p rest ih =>
    obtain ⟨k, v⟩ := p
    have hk : ¬ key = k := fun e => h (k, v) (List.mem_cons_self _ _) e.symm
    have hrest : ∀ q ∈ rest, q.1 ≠ key := fun q hq => h q (List.mem_cons_of_mem _ hq)
    unfold upsertRecord
    by_cases h1 : key < k
    · simp [h1]
    · simp only [h1, hk, if_false, List.length_cons, ih hrest]

/-- Claim C12, as the code has it: `addEquipment` does not validate its
input.  For every input record without an `id`, whatever its fields (a
required field may be empty, the status may lie outside the enumeration), it
stores the record and resolves with the new id, as long as the key generator
is not exhausted; the store then holds one record more. -/
theorem addEquipment_no_validation (store : ObjectStore) (hwf : store.WF)
    (equipment : Equipment) (hid : equipment.id = none)
    (hgen : store.currentNumber ≤ maxGeneratedKey) (now₁ now₂ : String) :
    ∃ store',
      addEquipment store equipment now₁ now₂ = (Promise.resolved store.currentNumber, store') ∧
      store'.getAll.length = store.getAll.length + 1 ∧
      { equipment with
        id := some store.currentNumber, timestamp := some now₁, lastUpdated := some now₂ }
          ∈ store'.getAll := by
  have hany : store.records.any (fun p => p.1 == store.currentNumber) = false :=
    any_key_false_of_lt _ _ hwf.2.2
  have hgen' : ¬ store.currentNumber > maxGeneratedKey := by omega
  have hadd : addEquipment store equipment now₁ now₂ =
      (Promise.resolved store.currentNumber,
        { records :=
            upsertRecord store.currentNumber
              { equipment with
                id := some store.currentNumber, timestamp := some now₁,
                lastUpdated := some now₂ }
              store.records,
          currentNumber := store.currentNumber + 1 }) := by
    simp only [addEquipment, ObjectStore.add, storeRecord, hid, hgen', hany, if_false,
      Bool.and_false, Bool.false_eq_true]
  refine ⟨_, hadd, ?_, ?_⟩
  · simp only [ObjectStore.getAll, List.length_map]
    apply upsertRecord_length_new
    intro p hp
    have := hwf.2.2 p hp
    omega
  · simp only [ObjectStore.getAll]
    exact List.mem_map.2
      ⟨_, lookup_some_mem _ _ _ (lookup_upsertRecord_self _ _ store.records), rfl⟩

/-- Witness for claim C12: a record with the status `Broken` is added to the
scenario store under id `3`. -/
theorem addEquipment_no_validation_witness :
    scenarioStore.WF ∧ brokenStatusInput.id = none ∧
      scenarioStore.currentNumber ≤ maxGeneratedKey ∧
      specValidInput brokenStatusInput = false ∧
      ∃ store',
        addEquipment scenarioStore brokenStatusInput "t5" "t6" = (Promise.resolved 3, store') ∧
        store'.getAll.length = 3 :=
  ⟨by decide, rfl, by decide, by decide,
    (addEquipment_no_validation scenarioStore (by decide) brokenStatusInput rfl (by decide)
      "t5" "t6").imp (fun _ h => ⟨h.1, h.2.1⟩)⟩

/-- Claim C12 as stated fails: a record without a name and a record with the
status `Broken` are both invalid for the specification, yet `addEquipment`
resolves for each and the store holds the record afterwards. -/
theorem addEquipment_invalid_counterexample :
    specValidInput namelessInput = false ∧
      (addEquipment emptyStore namelessInput "t1" "t2").1 = Promise.resolved 1 ∧
      (addEquipment emptyStore namelessInput "t1" "t2").2.getAll =
        [{ namelessInput with id := some 1, timestamp := some "t1", lastUpdated := some "t2" }] ∧
      specValidInput brokenStatusInput = false ∧
      (addEquipment emptyStore brokenStatusInput "t1" "t2").1 = Promise.resolved 1 ∧
      (addEquipment emptyStore brokenStatusInput "t1" "t2").2.getAll =
        [{ brokenStatusInput with
           id := some 1, timestamp := some "t1", lastUpdated := some "t2" }] := by
  decide

theorem updateEquipment_absent (store : ObjectStore) (id : Nat) (updatedData : EquipmentUpdate)
    (now : String) (h : editEquipment store id = none) :
    updateEquipment store id updatedData now = (Promise.pending, store) := by
  have hget : store.get id = none := h
  simp only [updateEquipment, hget]

/-- Claim C13 at its failing input: the scenario store has no record `7`, and
`updateEquipment(7, { status: "Maintenance" })` leaves the store unchanged
but its promise is never settled: it is neither rejected nor resolved. -/
theorem updateEquipment_absent_pending :
    editEquipment scenarioStore 7 = none ∧
      updateEquipment scenarioStore 7 statusMaintenance "t9" =
        (Promise.pending, scenarioStore) ∧
      (∀ error, (updateEquipment scenarioStore 7 statusMaintenance "t9").1 ≠
        Promise.rejected error) :=
  ⟨by decide, updateEquipment_absent scenarioStore 7 statusMaintenance "t9" (by decide),
    fun error h => by
      rw [updateEquipment_absent scenarioStore 7 statusMaintenance "t9" (by decide)] at h
      exact Promise.noConfusion h⟩

/-! ## Uniqueness of ids -/

theorem mem_upsertRecord (key : Nat) (value : Equipment) (records : List (Nat × Equipment))
    (p : Nat × Equipment) (hp : p ∈ upsertRecord key value records) :
    p = (key, value) ∨ p ∈ records := by
  induction records with
  | nil =>
    simp only [upsertRecord, List.mem_singleton] at hp
    exact Or.inl hp
  | cons q rest ih =>
    obtain ⟨k, v⟩ := q
    unfold upsertRecord at hp
    by_cases h1 : key < k
    · simp only [h1, if_true, List.mem_cons] at hp
      rcases hp with h | h | h
      · exact Or.inl h
      · exact Or.inr (h ▸ List.mem_cons_self _ _)
      · exact Or.inr (List.mem_cons_of_mem _ h)
    · by_cases h2 : key = k
      · subst h2
        simp only [h1, if_false, if_true, List.mem_cons] at hp
        rcases hp with h | h
        · exact Or.inl h
        · exact Or.inr (List.mem_cons_of_mem _ h)
      · simp only [h1, h2, if_false, List.mem_cons] at hp
        rcases hp with h | h
        · exact Or.inr (h ▸ List.mem_cons_self _ _)
        · rcases ih h with h' | h'
          · exact Or.inl h'
          · exact Or.inr (List.mem_cons_of_mem _ h')

theorem upsertRecord_keysOk (key : Nat) (value : Equipment) (hvalue : value.id = some key)
    (records : List (Nat × Equipment)) (h : KeysOk records) :
    KeysOk (upsertRecord key value records) := by
  constructor
  · have hs := h.1
    clear h
    induction records with
    | nil => simp [upsertRecord]
    | cons q rest ih =>
      obtain ⟨k, v⟩ := q
      rw [List.map_cons, List.pairwise_cons] at hs
      obtain ⟨hlt, hrest⟩ := hs
      unfold upsertRecord
      by_cases h1 : key < k
      · simp only [h1, if_true, List.map_cons, List.pairwise_cons, List.mem_cons]
        refine ⟨?_, hlt, hrest⟩
        intro b hb
        rcases hb with hb | hb
        · omega
        · have := hlt b hb
          simp only at this
          omega
      · by_cases h2 : key = k
        · subst h2
          simp only [h1, if_false, if_true, List.map_cons, List.pairwise_cons]
          exact ⟨hlt, hrest⟩
        · simp only [h1, h2, if_false, List.map_cons, List.pairwise_cons]
          refine ⟨?_, ih hrest⟩
          intro b hb
          obtain ⟨p, hp, hpb⟩ := List.mem_map.1 hb
          rcases mem_upsertRecord key value rest p hp with hp' | hp'
          · subst hp'
            simp only at hpb
            omega
          · exact hlt b (List.mem_map.2 ⟨p, hp', hpb⟩)
  · intro p hp
    rcases mem_upsertRecord key value records p hp with hp' | hp'
    · subst hp'
      exact hvalue
    · exact h.2 p hp'

theorem storeRecord_keysOk (store : ObjectStore) (value : Equipment) (noOverwrite : Bool)
    (h : KeysOk store.records) (key : Nat) (store' : ObjectStore)
    (hs : storeRecord store value noOverwrite = Except.ok (key, store')) :
    KeysOk store'.records := by
  unfold storeRecord at hs
  cases hid : value.id with
  | none =>
    simp only [hid] at hs
    split at hs
    · exact Except.noConfusion hs
    · split at hs
      · exact Except.noConfusion hs
      · have h2 := congrArg Prod.snd (Except.ok.inj hs)
        simp only at h2
        rw [← h2]
        exact upsertRecord_keysOk _ _ rfl _ h
  | some k =>
    simp only [hid] at hs
    split at hs
    · exact Except.noConfusion hs
    · have h2 := congrArg Prod.snd (Except.ok.inj hs)
      simp only at h2
      rw [← h2]
      exact upsertRecord_keysOk _ _ hid _ h

theorem addEquipment_keysOk (store : ObjectStore) (equipment : Equipment) (now₁ now₂ : String)
    (h : KeysOk store.records) : KeysOk (addEquipment store equipment now₁ now₂).2.records := by
  unfold addEquipment
  dsimp only
  cases hs : store.add { equipment with timestamp := some now₁, lastUpdated := some now₂ } with
  | error e => exact h
  | ok r =>
    obtain ⟨key, store'⟩ := r
    exact storeRecord_keysOk store _ true h key store' hs

theorem objectAssign_id (data : Equipment) (updatedData : EquipmentUpdate) :
    (objectAssign data updatedData).id =
      match updatedData.id with
      | some k => some k
      | none => data.id := rfl

theorem updateEquipment_keysOk (store : ObjectStore) (id : Nat) (updatedData : EquipmentUpdate)
    (now : String) (h : KeysOk store.records) :
    KeysOk (updateEquipment store id updatedData now).2.records := by
  unfold updateEquipment
  cases hget : store.get id with
  | none => exact h
  | some data =>
    dsimp only
    cases hs : store.put { objectAssign data updatedData with lastUpdated := some now } with
    | error e => exact h
    | ok r =>
      obtain ⟨key, store'⟩ := r
      exact storeRecord_keysOk store _ false h key store' hs

theorem deleteEquipment_keysOk (store : ObjectStore) (id : Nat) (h : KeysOk store.records) :
    KeysOk (deleteEquipment store id).2.records := by
  simp only [deleteEquipment, ObjectStore.delete]
  constructor
  · have hsub : ((store.records.filter (fun p => p.1 != id)).map Prod.fst).Sublist
        (store.records.map Prod.fst) := (List.filter_sublist _).map _
    exact h.1.sublist hsub
  · intro p hp
    exact h.2 p (List.mem_filter.1 hp).1

theorem reachable_keysOk (store : ObjectStore) (h : Reachable store) : KeysOk store.records := by
  induction h with
  | init => exact ⟨List.Pairwise.nil, fun p hp => absurd hp (List.not_mem_nil p)⟩
  | add store equipment now₁ now₂ _ ih => exact addEquipment_keysOk store equipment now₁ now₂ ih
  | update store id updatedData now _ ih =>
    exact updateEquipment_keysOk store id updatedData now ih
  | delete store id _ ih => exact deleteEquipment_keysOk store id ih

theorem getAll_ids (store : ObjectStore) (h : KeysOk store.records) :
    store.getAll.map (fun r => r.id) = (store.records.map Prod.fst).map some := by
  simp only [ObjectStore.getAll, List.map_map]
  apply List.map_congr_left
  intro p hp
  exact h.2 p hp

theorem updateEquipment_found (store : ObjectStore) (hk : KeysOk store.records) (id : Nat)
    (updatedData : EquipmentUpdate) (now : String) (data : Equipment)
    (hget : store.get id = some data) :
    ∃ j, (objectAssign data updatedData).id = some j ∧
      (updatedData.id = none ∨ updatedData.id = some id → j = id) ∧
      (∀ k, updatedData.id = some k → j = k) ∧
      updateEquipment store id updatedData now =
        (Promise.resolved j,
          { records :=
              upsertRecord j { objectAssign data updatedData with lastUpdated := some now }
                store.records,
            currentNumber :=
              if min j maxGeneratedKey ≥ store.currentNumber then min j maxGeneratedKey + 1
              else store.currentNumber }) := by
  have hmem : (id, data) ∈ store.records := lookup_some_mem id data store.records hget
  have hdid : data.id = some id := hk.2 (id, data) hmem
  have key : ∀ j, (objectAssign data updatedData).id = some j →
      updateEquipment store id updatedData now =
        (Promise.resolved j,
          { records :=
              upsertRecord j { objectAssign data updatedData with lastUpdated := some now }
                store.records,
            currentNumber :=
              if min j maxGeneratedKey ≥ store.currentNumber then min j maxGeneratedKey + 1
              else store.currentNumber }) := by
    intro j hj
    simp only [updateEquipment, hget, ObjectStore.put, storeRecord, hj, Bool.false_and,
      Bool.false_eq_true, if_false]
  cases hu : updatedData.id with
  | none =>
    have hj : (objectAssign data updatedData).id = some id := by
      rw [objectAssign_id, hu]
      exact hdid
    exact ⟨id, hj, fun _ => rfl, fun k hk' => Option.noConfusion hk', key id hj⟩
  | some k =>
    have hj : (objectAssign data updatedData).id = some k := by
      rw [objectAssign_id, hu]
    refine ⟨k, hj, ?_, fun k' hk' => (Option.some.inj hk'), key k hj⟩
    intro h
    rcases h with h | h
    · exact Option.noConfusion h
    · exact Option.some.inj h

theorem updateEquipment_keys (store : ObjectStore) (id : Nat) (updatedData : EquipmentUpdate)
    (now : String) (h : KeysOk store.records)
    (hid : updatedData.id = none ∨ updatedData.id = some id) :
    (updateEquipment store id updatedData now).2.records.map Prod.fst =
      store.records.map Prod.fst := by
  cases hget : store.get id with
  | none =>
    have hupd : updateEquipment store id updatedData now = (Promise.pending, store) := by
      simp only [updateEquipment, hget]
    rw [hupd]
  | some data =>
    have hmem : (id, data) ∈ store.records := lookup_some_mem id data store.records hget
    have hkeys : id ∈ store.records.map Prod.fst := List.mem_map.2 ⟨(id, data), hmem, rfl⟩
    obtain ⟨j, _, hj, _, hupd⟩ := updateEquipment_found store h id updatedData now data hget
    have hji : j = id := hj hid
    subst hji
    rw [hupd]
    exact (upsertRecord_map_snd j _ store.records h.1 h.2 hkeys).2

theorem lookup_of_mem (key : Nat) (value : Equipment) (records : List (Nat × Equipment))
    (hnd : (records.map Prod.fst).Nodup) (h : (key, value) ∈ records) :
    records.lookup key = some value := by
  induction records with
  | nil => exact absurd h (List.not_mem_nil _)
  | cons q rest ih =>
    obtain ⟨k, v⟩ := q
    rw [List.map_cons, List.nodup_cons] at hnd
    rw [List.lookup_cons]
    rcases List.mem_cons.1 h with h1 | h1
    · have hk : key = k := congrArg Prod.fst h1
      have hv : value = v := congrArg Prod.snd h1
      subst hk
      subst hv
      simp
    · have hne : ¬ key = k := by
        intro e
        subst e
        exact hnd.1 (List.mem_map.2 ⟨(key, value), h1, rfl⟩)
      have hb : (key == k) = false := by simpa using hne
      rw [hb]
      exact ih hnd.2 h1

/-- Claim C14: in every store state reachable from the empty store by calls
of `addEquipment`, `updateEquipment` and `deleteEquipment` (with any
arguments, an `updatedData` that carries an `id` included), the records
returned by `getAllEquipment` carry pairwise distinct ids.  A call of
`updateEquipment` changes the id of no stored record: a record read under an
id before the call is read under the same id after it, and the ids stay
pairwise distinct.  (When `updatedData` carries another id, the merged object
is put under that id, as a new record or over the record stored there; the
record read under the first id stays.)  When `updatedData` carries no id, or
the id of the call, the list of ids is the same before and after. -/
theorem reachable_ids_unique (store : ObjectStore) (h : Reachable store) :
    (∃ all, getAllEquipment store = Promise.resolved all ∧
        (all.map (fun r => r.id)).Nodup ∧ ∀ r ∈ all, r.id ≠ none) ∧
      ∀ (id : Nat) (updatedData : EquipmentUpdate) (now : String),
        (∀ k r, editEquipment store k = some r →
            r.id = some k ∧
              ∃ r', editEquipment (updateEquipment store id updatedData now).2 k = some r' ∧
                r'.id = r.id) ∧
          ((updateEquipment store id updatedData now).2.getAll.map (fun r => r.id)).Nodup ∧
          (updatedData.id = none ∨ updatedData.id = some id →
            (updateEquipment store id updatedData now).2.getAll.map (fun r => r.id) =
              store.getAll.map (fun r => r.id)) := by
  have hk := reachable_keysOk store h
  have hnodup : ∀ s : ObjectStore, KeysOk s.records → (s.getAll.map (fun r => r.id)).Nodup := by
    intro s hs
    rw [getAll_ids s hs]
    have hnd : (s.records.map Prod.fst).Nodup := hs.1.imp (fun hab => Nat.ne_of_lt hab)
    exact hnd.map (fun a b hab => Option.some.inj hab)
  constructor
  · refine ⟨store.getAll, rfl, hnodup store hk, ?_⟩
    intro r hr
    obtain ⟨p, hp, hpr⟩ := List.mem_map.1 hr
    rw [← hpr, hk.2 p hp]
    exact Option.some_ne_none _
  · intro id updatedData now
    have hk' := updateEquipment_keysOk store id updatedData now hk
    refine ⟨?_, hnodup _ hk', ?_⟩
    · intro k r hr
      have hmem : (k, r) ∈ store.records := lookup_some_mem k r store.records hr
      have hrid : r.id = some k := hk.2 (k, r) hmem
      refine ⟨hrid, ?_⟩
      cases hget : store.get id with
      | none =>
        have hupd : updateEquipment store id updatedData now = (Promise.pending, store) := by
          simp only [updateEquipment, hget]
        rw [hupd]
        exact ⟨r, hr, rfl⟩
      | some data =>
        obtain ⟨j, hj, _, _, hupd⟩ :=
          updateEquipment_found store hk id updatedData now data hget
        rw [hupd]
        by_cases hkj : k = j
        · subst hkj
          refine ⟨_, lookup_upsertRecord_self k _ store.records, ?_⟩
          rw [hrid]
          exact hj
        · refine ⟨r, ?_, rfl⟩
          have := lookup_upsertRecord_other j k
            { objectAssign data updatedData with lastUpdated := some now } store.records hkj
          exact this.trans hr
    · intro hid
      rw [getAll_ids _ hk', getAll_ids store hk,
        updateEquipment_keys store id updatedData now hk hid]

/-- An update that carries an id: on the two-record scenario store,
`updateEquipment(1, { id: 5 })` leaves the records `1` and `2` as they are
and stores a copy of record `1` under the id `5`; `updateEquipment(1, { id: 2 })`
overwrites the record `2` with a copy of record `1` that carries the id `2`. -/
theorem updateEquipment_with_id :
    (updateEquipment scenarioStore 1 { id := some 5 } "t9").2.getAll.map (fun r => r.id) =
        [some 1, some 2, some 5] ∧
      editEquipment (updateEquipment scenarioStore 1 { id := some 5 } "t9").2 1 =
        editEquipment scenarioStore 1 ∧
      editEquipment (updateEquipment scenarioStore 1 { id := some 5 } "t9").2 2 =
        editEquipment scenarioStore 2 ∧
      (updateEquipment scenarioStore 1 { id := some 2 } "t9").2.getAll.map (fun r => r.id) =
        [some 1, some 2] ∧
      editEquipment (updateEquipment scenarioStore 1 { id := some 2 } "t9").2 2 =
        some { id := some 2, name := "Ladder 1", type := "Ladder", location := "Station 1",
               status := "Available", timestamp := some "t1", lastUpdated := some "t9" } := by
  decide

theorem scenarioStore_reachable : Reachable scenarioStore := by
  have h2 := Reachable.add _
    { name := "Pump 2", type := "Pump", location := "Station 2", status := "Out of Service",
      serialNumber := some "" } "t3" "t4"
    (Reachable.add _
      { name := "Ladder 1", type := "Ladder", location := "Station 1", status := "Available" }
      "t1" "t2" Reachable.init)
  exact h2

/-- Witness for claim C14: the scenario store is reached by two calls of
`addEquipment`, and its two records carry distinct ids. -/
theorem reachable_ids_unique_witness :
    Reachable scenarioStore ∧
      ∃ all, getAllEquipment scenarioStore = Promise.resolved all ∧
        (all.map (fun r => r.id)).Nodup ∧ ∀ r ∈ all, r.id ≠ none :=
  ⟨scenarioStore_reachable, (reachable_ids_unique scenarioStore scenarioStore_reachable).1⟩

/-! ## The CSV export -/

theorem takeWhile_append_stop (p : Char → Bool) (l : List Char) (a : Char) (t : List Char)
    (hl : ∀ x ∈ l, p x = true) (ha : p a = false) :
    (l ++ a :: t).takeWhile p = l := by
  induction l with
  | nil => simp [List.takeWhile, ha]
  | cons x xs ih =>
    have hx : p x = true := hl x (List.mem_cons_self _ _)
    have hxs : ∀ y ∈ xs, p y = true := fun y hy => hl y (List.mem_cons_of_mem _ hy)
    simp [List.takeWhile, hx, ih hxs]

theorem foldl_append_prefix (f : Equipment → String) (equipment : List Equipment)
    (acc : String) :
    ∃ tail, equipment.foldl (fun csv item => csv ++ f item) acc = acc ++ tail := by
  induction equipment generalizing acc with
  | nil => exact ⟨"", by simp⟩
  | cons item rest ih =>
    obtain ⟨tail, ht⟩ := ih (acc ++ f item)
    exact ⟨f item ++ tail, by rw [List.foldl_cons, ht, String.append_assoc]⟩

theorem firstLine_csvHeader_append (tail : String) :
    firstLine (csvHeader ++ tail) =
      "Equipment Name,Type,Location,Status,Serial Number,Notes,Added Date,Last Updated" := by
  have hdata : (csvHeader ++ tail).data =
      ("Equipment Name,Type,Location,Status,Serial Number,Notes,Added Date,Last Updated").data
        ++ '\n' :: tail.data := by
    rw [String.data_append]
    rfl
  unfold firstLine
  rw [hdata, takeWhile_append_stop _ _ _ _ (by decide) (by decide)]

theorem exportToCSV_ne_nil (toLocaleDateString : Option String → String)
    (equipment : List Equipment) (h : equipment ≠ []) :
    ∃ tail, exportToCSV toLocaleDateString equipment = some (csvHeader ++ tail) := by
  have hlen : ¬ equipment.length = 0 := fun h0 => h (List.length_eq_zero.1 h0)
  obtain ⟨tail, ht⟩ := foldl_append_prefix
    (fun item => csvRow (csvFields toLocaleDateString item) ++ "\n") equipment csvHeader
  refine ⟨tail, ?_⟩
  unfold exportToCSV
  rw [if_neg hlen, ht]

/-- Claim C15, as the code has it: for every non-empty record list,
`exportToCSV` builds a text whose first line is exactly
`Equipment Name,Type,Location,Status,Serial Number,Notes,Added Date,Last Updated`. -/
theorem exportToCSV_header (toLocaleDateString : Option String → String)
    (equipment : List Equipment) (h : equipment ≠ []) :
    ∃ csv, exportToCSV toLocaleDateString equipment = some csv ∧
      firstLine csv =
        "Equipment Name,Type,Location,Status,Serial Number,Notes,Added Date,Last Updated" := by
  obtain ⟨tail, ht⟩ := exportToCSV_ne_nil toLocaleDateString equipment h
  exact ⟨csvHeader ++ tail, ht, firstLine_csvHeader_append tail⟩

/-- Witness for claim C15: the header line of the export of the two-record
scenario. -/
theorem exportToCSV_header_witness :
    scenarioRecords ≠ [] ∧
      ∃ csv, exportToCSV sampleDate scenarioRecords = some csv ∧
        firstLine csv =
          "Equipment Name,Type,Location,Status,Serial Number,Notes,Added Date,Last Updated" :=
  ⟨by decide, exportToCSV_header sampleDate scenarioRecords (by decide)⟩

/-- Claim C15 as stated fails: the first line of the export of the two-record
scenario is not the header row that the specification quotes, which starts
with `Name` instead of `Equipment Name`. -/
theorem exportToCSV_header_counterexample :
    scenarioRecords ≠ [] ∧
      ∃ csv, exportToCSV sampleDate scenarioRecords = some csv ∧
        firstLine csv ≠ specHeaderRow := by
  refine ⟨by decide, ?_⟩
  obtain ⟨tail, ht⟩ := exportToCSV_ne_nil sampleDate scenarioRecords (by decide)
  refine ⟨csvHeader ++ tail, ht, ?_⟩
  rw [firstLine_csvHeader_append tail]
  decide

/-- Claim C16 at its failing input: a record named `Hose","3` of type `Hose`
and a record named `Hose` of type `3","Hose` are exported to the same text,
because the fields are put between double quotes without escaping the double
quotes inside them.  So no reader of the text returns the fields of both
records: for every reader the round trip fails on one of the two lists. -/
theorem exportToCSV_quote_collision :
    quotedNameRecords ≠ quotedTypeRecords ∧
      (∀ toLocaleDateString : Option String → String,
        exportToCSV toLocaleDateString quotedNameRecords =
          exportToCSV toLocaleDateString quotedTypeRecords) ∧
      exportToCSV sampleDate quotedNameRecords =
        some (csvHeader ++
          "\"Hose\",\"3\",\"Hose\",\"Station 1\",\"Available\",\"\",\"\",\"Invalid Date\",\"Invalid Date\"\n") ∧
      ∀ (parseRows : String → List (List String))
        (toLocaleDateString : Option String → String),
        ¬ (RoundTrips parseRows toLocaleDateString quotedNameRecords ∧
            RoundTrips parseRows toLocaleDateString quotedTypeRecords) := by
  have hsame : ∀ toLocaleDateString : Option String → String,
      exportToCSV toLocaleDateString quotedNameRecords =
        exportToCSV toLocaleDateString quotedTypeRecords := by
    intro toLocaleDateString
    rfl
  refine ⟨by decide, hsame, by decide, ?_⟩
  intro parseRows toLocaleDateString ⟨h1, h2⟩
  obtain ⟨tail, ht⟩ := exportToCSV_ne_nil toLocaleDateString quotedNameRecords (by decide)
  have e1 := h1 _ ht
  have e2 := h2 _ ((hsame toLocaleDateString) ▸ ht)
  rw [e1] at e2
  revert e2
  decide

/-- Claim C17: for every non-empty record list the compliance score of
`generateComplianceReport` lies between `-100` and `100`; it can be negative:
a single record that is out of service and has the empty serial number is
subtracted twice and the score is `-100`, displayed as `-100.0`. -/
theorem complianceScore_bounds (equipment : List Equipment) (h : equipment ≠ []) :
    (∃ q, complianceScoreValue equipment = JSNumber.fin q ∧ -100 ≤ q ∧ q ≤ 100) ∧
      ∀ item : Equipment, item.status = "Out of Service" → item.serialNumber = some "" →
        complianceScoreValue [item] = JSNumber.fin (-100) ∧
          complianceScore [item] = "-100.0" := by
  constructor
  · obtain ⟨q, hq, hb, _⟩ := complianceScoreValue_near equipment h
    exact ⟨q, hq, (abs_le.1 hb).1, (abs_le.1 hb).2⟩
  · intro item hstatus hserial
    have hm : (missingSerialNumbers [item]).length = 1 := by
      simp [missingSerialNumbers, isMissingSerial, hserial]
    have ho : (outOfService [item]).length = 1 := by
      simp [outOfService, hstatus]
    have hl : [item].length = 1 := rfl
    have hv : complianceScoreValue [item] = JSNumber.fin (-100) := by
      unfold complianceScoreValue
      rw [hm, ho, hl]
      have := jsMul_jsDiv_dyadic (((1 : ℕ) : ℚ) - ((1 : ℕ) : ℚ) - ((1 : ℕ) : ℚ))
        ((1 : ℕ) : ℚ) (by norm_num) (-1) 0 (-100) (by norm_num) (by norm_num) (by norm_num)
        (by norm_num) (by norm_num) (by norm_num)
      simpa using this
    refine ⟨hv, ?_⟩
    unfold complianceScore
    rw [hv]
    norm_num [toFixed1, toFixed1Abs]
    decide

/-- Witness for claim C17: the score of the two-record scenario is within the
bounds. -/
theorem complianceScore_bounds_witness :
    scenarioRecords ≠ [] ∧
      ∃ q, complianceScoreValue scenarioRecords = JSNumber.fin q ∧ -100 ≤ q ∧ q ≤ 100 :=
  ⟨by decide, (complianceScore_bounds scenarioRecords (by decide)).1⟩

/-! ## The groups of the grouped reports -/

theorem addToGroup_own_eq (groups : GroupObject) (key : String) (item : Equipment)
    (h : key ∈ groups.map Prod.fst) :
    addToGroup groups key item =
      Except.ok (groups.map (fun p => if p.1 == key then (p.1, p.2 ++ [item]) else p)) := by
  have hany : groups.any (fun p => p.1 == key) = true := by
    rw [List.any_eq_true]
    obtain ⟨p, hp, hk⟩ := List.mem_map.1 h
    exact ⟨p, hp, by simp [hk]⟩
  simp only [addToGroup, hany, if_true]

theorem sum_lengths_push (groups : GroupObject) (key : String) (item : Equipment)
    (hnd : (groups.map Prod.fst).Nodup) (h : key ∈ groups.map Prod.fst) :
    ((groups.map (fun p => if p.1 == key then (p.1, p.2 ++ [item]) else p)).map
        (fun p => p.2.length)).sum =
      (groups.map (fun p => p.2.length)).sum + 1 := by
  induction groups with
  | nil => simp at h
  | cons q rest ih =>
    rw [List.map_cons, List.nodup_cons] at hnd
    rw [List.map_cons, List.mem_cons] at h
    by_cases hq : q.1 = key
    · have hrest : ∀ p ∈ rest, ¬ p.1 = key := by
        intro p hp hpk
        apply hnd.1
        rw [hq, ← hpk]
        exact List.mem_map.2 ⟨p, hp, rfl⟩
      have hsame : rest.map (fun p => if p.1 == key then (p.1, p.2 ++ [item]) else p) = rest := by
        conv_rhs => rw [← List.map_id rest]
        apply List.map_congr_left
        intro p hp
        simp [hrest p hp]
      simp only [List.map_cons, List.sum_cons, hsame]
      simp [hq]
      omega
    · have hmem : key ∈ rest.map Prod.fst := by
        rcases h with h | h
        · exact absurd h.symm hq
        · exact h
      simp only [List.map_cons, List.sum_cons, ih hnd.2 hmem]
      simp [hq]
      omega

theorem foldlM_addToGroup_partition (key : Equipment → String) (rest : List Equipment) :
    ∀ (done : List Equipment) (groups : GroupObject),
      (∀ item ∈ rest, key item ∉ objectPrototypeKeys) →
      (groups.map Prod.fst).Nodup →
      (∀ p ∈ groups, p.2 = done.filter (fun item => key item == p.1) ∧ p.2 ≠ []) →
      (∀ item ∈ done, key item ∈ groups.map Prod.fst) →
      (groups.map (fun p => p.2.length)).sum = done.length →
      ∃ groups',
        rest.foldlM (fun g item => addToGroup g (key item) item) groups = Except.ok groups' ∧
        (groups'.map Prod.fst).Nodup ∧
        (∀ p ∈ groups',
          p.2 = (done ++ rest).filter (fun item => key item == p.1) ∧ p.2 ≠ []) ∧
        (∀ item ∈ done ++ rest, key item ∈ groups'.map Prod.fst) ∧
        (groups'.map (fun p => p.2.length)).sum = (done ++ rest).length := by
  induction rest with
  | nil =>
    intro done groups _ hnd hitems hcover hsum
    refine ⟨groups, rfl, hnd, ?_, ?_, ?_⟩
    · simpa using hitems
    · simpa using hcover
    · simpa using hsum
  | cons x rest ih =>
    intro done groups hproto hnd hitems hcover hsum
    have hrest : ∀ item ∈ rest, key item ∉ objectPrototypeKeys :=
      fun item hi => hproto item (List.mem_cons_of_mem _ hi)
    have hx : key x ∉ objectPrototypeKeys := hproto x (List.mem_cons_self _ _)
    have happ : done ++ x :: rest = (done ++ [x]) ++ rest := by simp
    by_cases hmem : key x ∈ groups.map Prod.fst
    · have hstep := addToGroup_own_eq groups (key x) x hmem
      obtain ⟨g1, hg1, hkeys⟩ := addToGroup_own groups (key x) x hmem
      have hg1eq : g1 = groups.map (fun p => if p.1 == key x then (p.1, p.2 ++ [x]) else p) :=
        (Except.ok.inj (hg1.symm.trans hstep))
      have hitems1 : ∀ p ∈ g1,
          p.2 = (done ++ [x]).filter (fun item => key item == p.1) ∧ p.2 ≠ [] := by
        intro p hp
        rw [hg1eq] at hp
        obtain ⟨q, hq, hqp⟩ := List.mem_map.1 hp
        obtain ⟨hq1, hq2⟩ := hitems q hq
        by_cases hk : q.1 = key x
        · have hpe : p = (q.1, q.2 ++ [x]) := by rw [← hqp]; simp [hk]
          rw [hpe]
          refine ⟨?_, by simp⟩
          simp only [List.filter_append, ← hq1]
          simp [hk]
        · have hpe : p = q := by rw [← hqp]; simp [hk]
          rw [hpe]
          refine ⟨?_, hq2⟩
          have hne : ¬ key x = q.1 := fun e => hk e.symm
          simp only [List.filter_append, ← hq1]
          simp [hne]
      have hcover1 : ∀ item ∈ done ++ [x], key item ∈ g1.map Prod.fst := by
        intro item hi
        rw [hkeys]
        rcases List.mem_append.1 hi with hi | hi
        · exact hcover item hi
        · rw [List.mem_singleton] at hi
          rw [hi]
          exact hmem
      have hsum1 : (g1.map (fun p => p.2.length)).sum = (done ++ [x]).length := by
        rw [hg1eq, sum_lengths_push groups (key x) x hnd hmem, hsum]
        simp
      obtain ⟨g2, hg2, h1, h2, h3, h4⟩ :=
        ih (done ++ [x]) g1 hrest (by rw [hkeys]; exact hnd) hitems1 hcover1 hsum1
      refine ⟨g2, ?_, h1, ?_, ?_, ?_⟩
      · rw [List.foldlM_cons, hg1]
        exact hg2
      · rw [happ]
        exact h2
      · rw [happ]
        exact h3
      · rw [happ]
        exact h4
    · have hg1 := addToGroup_new groups (key x) x hmem hx
      have hkeys : (groups ++ [(key x, [x])]).map Prod.fst =
          groups.map Prod.fst ++ [key x] := by simp
      have hnd1 : ((groups ++ [(key x, [x])]).map Prod.fst).Nodup := by
        rw [hkeys]
        refine List.Nodup.append hnd (List.nodup_singleton _) ?_
        intro k hk1 hk2
        rw [List.mem_singleton] at hk2
        exact hmem (hk2 ▸ hk1)
      have hnone : done.filter (fun item => key item == key x) = [] := by
        rw [List.filter_eq_nil_iff]
        intro item hi hk
        have : key item = key x := by simpa using hk
        exact hmem (this ▸ hcover item hi)
      have hitems1 : ∀ p ∈ groups ++ [(key x, [x])],
          p.2 = (done ++ [x]).filter (fun item => key item == p.1) ∧ p.2 ≠ [] := by
        intro p hp
        rcases List.mem_append.1 hp with hp | hp
        · obtain ⟨hq1, hq2⟩ := hitems p hp
          refine ⟨?_, hq2⟩
          have hne : ¬ key x = p.1 := by
            intro e
            exact hmem (e ▸ List.mem_map.2 ⟨p, hp, rfl⟩)
          simp only [List.filter_append, ← hq1]
          simp [hne]
        · rw [List.mem_singleton] at hp
          rw [hp]
          refine ⟨?_, by simp⟩
          simp only [List.filter_append, hnone]
          simp
      have hcover1 : ∀ item ∈ done ++ [x],
          key item ∈ (groups ++ [(key x, [x])]).map Prod.fst := by
        intro item hi
        rw [hkeys]
        rcases List.mem_append.1 hi with hi | hi
        · exact List.mem_append_left _ (hcover item hi)
        · rw [List.mem_singleton] at hi
          rw [hi]
          exact List.mem_append_right _ (List.mem_singleton_self _)
      have hsum1 : ((groups ++ [(key x, [x])]).map (fun p => p.2.length)).sum =
          (done ++ [x]).length := by
        simp [hsum]
      obtain ⟨g2, hg2, h1, h2, h3, h4⟩ :=
        ih (done ++ [x]) _ hrest hnd1 hitems1 hcover1 hsum1
      refine ⟨g2, ?_, h1, ?_, ?_, ?_⟩
      · rw [List.foldlM_cons, hg1]
        exact hg2
      · rw [happ]
        exact h2
      · rw [happ]
        exact h3
      · rw [happ]
        exact h4

theorem groupBy_partition (key : Equipment → String) (equipment : List Equipment)
    (hproto : ∀ item ∈ equipment, key item ∉ objectPrototypeKeys) :
    ∃ groups,
      groupBy key equipment = Except.ok groups ∧
      (groups.map Prod.fst).Nodup ∧
      (∀ p ∈ groups, p.2 = equipment.filter (fun item => key item == p.1) ∧ p.2 ≠ []) ∧
      (∀ item ∈ equipment, key item ∈ groups.map Prod.fst) ∧
      (groups.map (fun p => p.2.length)).sum = equipment.length := by
  have h := foldlM_addToGroup_partition key equipment [] [] hproto (by simp) (by simp)
    (by simp) (by simp)
  simpa [groupBy] using h

/-- The groups of the grouped reports away from the inherited property
names: when no record has a location (resp. type) that is a property name of
`Object.prototype`, the groups of `generateLocationReport` (resp.
`generateTypeReport`) have distinct keys, the group of a key holds exactly
the records with that location (resp. type) in their input order, every
record has its group, no group is empty, and the sizes of the groups add up
to the number of records. -/
theorem groups_partition (equipment : List Equipment) :
    ((∀ item ∈ equipment, item.location ∉ objectPrototypeKeys) →
      ∃ groups, locationGroups equipment = Except.ok groups ∧
        (groups.map Prod.fst).Nodup ∧
        (∀ p ∈ groups,
          p.2 = equipment.filter (fun item => item.location == p.1) ∧ p.2 ≠ []) ∧
        (∀ item ∈ equipment, item.location ∈ groups.map Prod.fst) ∧
        (groups.map (fun p => p.2.length)).sum = equipment.length) ∧
    ((∀ item ∈ equipment, item.type ∉ objectPrototypeKeys) →
      ∃ groups, typeGroups equipment = Except.ok groups ∧
        (groups.map Prod.fst).Nodup ∧
        (∀ p ∈ groups,
          p.2 = equipment.filter (fun item => item.type == p.1) ∧ p.2 ≠ []) ∧
        (∀ item ∈ equipment, item.type ∈ groups.map Prod.fst) ∧
        (groups.map (fun p => p.2.length)).sum = equipment.length) :=
  ⟨fun h => groupBy_partition (fun item => item.location) equipment h,
    fun h => groupBy_partition (fun item => item.type) equipment h⟩

/-- Claim C18 at its failing input: for a list that holds a record at the
location (resp. of the type) `constructor` the grouping loop of
`generateLocationReport` (resp. `generateTypeReport`) throws a `TypeError`;
no groups are built, so the records are in no group. -/
theorem groups_constructor_throws :
    locationGroups (stationRecords ++ constructorLocationRecords) =
        Except.error JSError.typeError ∧
      typeGroups (stationRecords ++ constructorTypeRecords) =
        Except.error JSError.typeError :=
  ⟨rfl, rfl⟩

/-! ## The store invariant along a run of the application -/

theorem emptyStore_wf : (initDB none).WF := by decide

theorem addEquipment_wf (store : ObjectStore) (hwf : store.WF) (equipment : Equipment)
    (hid : equipment.id = none) (now₁ now₂ : String) :
    (addEquipment store equipment now₁ now₂).2.WF := by
  have hk : KeysOk (addEquipment store equipment now₁ now₂).2.records :=
    addEquipment_keysOk store equipment now₁ now₂ ⟨hwf.1, hwf.2.1⟩
  refine ⟨hk.1, hk.2, ?_⟩
  have hany : store.records.any (fun p => p.1 == store.currentNumber) = false :=
    any_key_false_of_lt _ _ hwf.2.2
  by_cases hgen : store.currentNumber > maxGeneratedKey
  · have hadd : addEquipment store equipment now₁ now₂ =
        (Promise.rejected StoreError.constraintError, store) := by
      simp only [addEquipment, ObjectStore.add, storeRecord, hid, hgen, if_true]
    rw [hadd]
    exact hwf.2.2
  · have hadd : addEquipment store equipment now₁ now₂ =
        (Promise.resolved store.currentNumber,
          { records :=
              upsertRecord store.currentNumber
                { equipment with
                  id := some store.currentNumber, timestamp := some now₁,
                  lastUpdated := some now₂ }
                store.records,
            currentNumber := store.currentNumber + 1 }) := by
      simp only [addEquipment, ObjectStore.add, storeRecord, hid, hgen, hany, if_false,
        Bool.and_false, Bool.false_eq_true]
    rw [hadd]
    intro p hp
    rcases mem_upsertRecord _ _ _ p hp with h | h
    · rw [h]
      exact Nat.lt_succ_self _
    · exact Nat.lt_succ_of_lt (hwf.2.2 p h)

theorem updateEquipment_wf (store : ObjectStore) (hwf : store.WF) (id : Nat)
    (updatedData : EquipmentUpdate) (now : String)
    (hsafe : ∀ k, updatedData.id = some k → k ≤ maxGeneratedKey) :
    (updateEquipment store id updatedData now).2.WF := by
  have hk0 : KeysOk store.records := ⟨hwf.1, hwf.2.1⟩
  have hk : KeysOk (updateEquipment store id updatedData now).2.records :=
    updateEquipment_keysOk store id updatedData now hk0
  refine ⟨hk.1, hk.2, ?_⟩
  cases hget : store.get id with
  | none =>
    have hupd : updateEquipment store id updatedData now = (Promise.pending, store) := by
      simp only [updateEquipment, hget]
    rw [hupd]
    exact hwf.2.2
  | some data =>
    have hmem : (id, data) ∈ store.records := lookup_some_mem id data store.records hget
    have hlt : id < store.currentNumber := hwf.2.2 (id, data) hmem
    obtain ⟨j, _, hj1, hj2, hupd⟩ :=
      updateEquipment_found store hk0 id updatedData now data hget
    have hjb : j < store.currentNumber ∨ j ≤ maxGeneratedKey := by
      cases hu : updatedData.id with
      | none =>
        have := hj1 (Or.inl hu)
        omega
      | some k =>
        have h1 := hj2 k hu
        have h2 := hsafe k hu
        omega
    rw [hupd]
    intro p hp
    have hp1 : p.1 = j ∨ p.1 < store.currentNumber := by
      rcases mem_upsertRecord _ _ _ p hp with h | h
      · exact Or.inl (by rw [h])
      · exact Or.inr (hwf.2.2 p h)
    show p.1 < (if min j maxGeneratedKey ≥ store.currentNumber then min j maxGeneratedKey + 1
      else store.currentNumber)
    split_ifs with hc
    · rcases hp1 with h | h <;> omega
    · rcases hp1 with h | h <;> omega

theorem deleteEquipment_wf (store : ObjectStore) (hwf : store.WF) (id : Nat) :
    (deleteEquipment store id).2.WF := by
  have hk : KeysOk (deleteEquipment store id).2.records :=
    deleteEquipment_keysOk store id ⟨hwf.1, hwf.2.1⟩
  refine ⟨hk.1, hk.2, ?_⟩
  intro p hp
  simp only [deleteEquipment, ObjectStore.delete] at hp
  exact hwf.2.2 p (List.mem_filter.1 hp).1

/-! ## Rounding in the percentages -/

theorem fleetRecords_counts :
    fleetRecords.length = 80 ∧ (missingSerialNumbers fleetRecords).length = 0 ∧
      (outOfService fleetRecords).length = 57 ∧ (available fleetRecords).length = 23 := by
  have m1 : ¬ isMissingSerial fleetHose = true := by decide
  have m2 : ¬ isMissingSerial fleetPump = true := by decide
  have o1 : ¬ (fleetHose.status == "Out of Service") = true := by decide
  have o2 : (fleetPump.status == "Out of Service") = true := by decide
  have a1 : (fleetHose.status == "Available") = true := by decide
  have a2 : ¬ (fleetPump.status == "Available") = true := by decide
  refine ⟨?_, ?_, ?_, ?_⟩
  · simp only [fleetRecords, List.length_append, List.length_replicate]
  · simp only [fleetRecords, missingSerialNumbers, List.filter_append]
    rw [List.filter_replicate_of_neg m1, List.filter_replicate_of_neg m2]
    rfl
  · have f1 : (List.replicate 23 fleetHose).filter
        (fun item => item.status == "Out of Service") = [] :=
      List.filter_replicate_of_neg o1
    have f2 : (List.replicate 57 fleetPump).filter
        (fun item => item.status == "Out of Service") = List.replicate 57 fleetPump :=
      List.filter_replicate_of_pos o2
    simp only [fleetRecords, outOfService, List.filter_append, f1, f2, List.nil_append,
      List.length_replicate]
  · have f1 : (List.replicate 23 fleetHose).filter
        (fun item => item.status == "Available") = List.replicate 23 fleetHose :=
      List.filter_replicate_of_pos a1
    have f2 : (List.replicate 57 fleetPump).filter
        (fun item => item.status == "Available") = [] :=
      List.filter_replicate_of_neg a2
    simp only [fleetRecords, available, List.filter_append, f1, f2, List.append_nil,
      List.length_replicate]

theorem jsMul_jsDiv_23_80 :
    jsMul (jsDiv 23 80) 100 = JSNumber.fin (8092405580431359 / 2 ^ 48) := by
  unfold jsDiv
  rw [if_neg (by norm_num),
    roundToDouble_of_pos (23 / 80) (-2) (by norm_num) (by norm_num) (by norm_num)
      (by norm_num)]
  norm_num [roundHalfEven, jsMul]
  rw [roundToDouble_of_pos _ 4 (by norm_num) (by norm_num) (by norm_num) (by norm_num)]
  norm_num [roundHalfEven]

/-- The percentages of a fleet of 80 records of which 23 are available and 57
out of service, all with serial numbers: the compliance score and the
availability percentage are both the double `8092405580431359 / 2 ^ 48`
(`28.749999999999996...`, the rounded value of `23 / 80 * 100`), which
`toFixed(1)` prints as `28.7`; the exact value `28.75` would print as
`28.8`. -/
theorem fleetRecords_percentages :
    complianceScoreValue fleetRecords = JSNumber.fin (8092405580431359 / 2 ^ 48) ∧
      complianceScore fleetRecords = "28.7" ∧
      readinessPercentValue (available fleetRecords) fleetRecords =
        JSNumber.fin (8092405580431359 / 2 ^ 48) ∧
      readinessPercent (available fleetRecords) fleetRecords = "28.7" ∧
      toFixed1 (JSNumber.fin (23 / 80 * 100)) = "28.8" := by
  obtain ⟨hl, hm, ho, ha⟩ := fleetRecords_counts
  have hv : complianceScoreValue fleetRecords = JSNumber.fin (8092405580431359 / 2 ^ 48) := by
    unfold complianceScoreValue
    rw [hm, ho, hl]
    have e : ((80 : ℕ) : ℚ) - ((0 : ℕ) : ℚ) - ((57 : ℕ) : ℚ) = 23 := by norm_num
    have e2 : ((80 : ℕ) : ℚ) = 80 := by norm_num
    rw [e, e2]
    exact jsMul_jsDiv_23_80
  have hr : readinessPercentValue (available fleetRecords) fleetRecords =
      JSNumber.fin (8092405580431359 / 2 ^ 48) := by
    unfold readinessPercentValue
    rw [ha, hl]
    have e : ((23 : ℕ) : ℚ) = 23 := by norm_num
    have e2 : ((80 : ℕ) : ℚ) = 80 := by norm_num
    rw [e, e2]
    exact jsMul_jsDiv_23_80
  have hs : toFixed1 (JSNumber.fin (8092405580431359 / 2 ^ 48)) = "28.7" := by
    norm_num [toFixed1, toFixed1Abs]
    decide
  refine ⟨hv, ?_, hr, ?_, ?_⟩
  · unfold complianceScore
    rw [hv]
    exact hs
  · unfold readinessPercent
    rw [hr]
    exact hs
  · norm_num [toFixed1, toFixed1Abs]
    decide

end EquipmentTracker
